import Mathlib

/-!
Verification of the rent-receipt matching engine (`src/ocr/matching/`):
normalizers (`normalizers.py`), fuzzy similarity (`fuzzy.py`) and the
matcher (`matcher.py`).

Modelling conventions for the shallow embedding:
- a Python `str` is modelled as `List Char` (named `Str`); `str.upper` /
  `str.lower` are modelled at the ASCII level (`upperChar` / `lowerChar`),
  which agrees with Python on all ASCII data, and the Turkish-specific
  characters are handled by the explicit substitution tables that the
  source itself applies;
- a Python `float` is modelled as `ℚ` (the numeric literals `0.05`, `0.2`,
  `0.6`, `0.4`, `0.7`, `70.0`, `90` of the source become the exact
  rationals they denote);
- a Python `dict` record is modelled as a structure whose optional keys are
  `Option` fields; `dict.get(k)` is the field itself, `dict.get(k, d)` is
  `(field).getD d`;
- `None` is `Option.none`; Python truthiness of a `str` is non-emptiness,
  of a `float` is being nonzero, of `None` is falsity;
- Python `set` is `Finset` (its iteration order is unspecified in Python
  and never observed by the engine);
- functions whose Python loop advances by more than one character per step
  are defined structurally on an explicit fuel argument that the wrapper
  instantiates with the input length, which is always sufficient;
- the human-readable message strings of `matcher.py` are modelled by the
  inductive `MatchMessage`, one constructor per literal format string,
  carrying the interpolated score;
- the `matching_details` debug dictionary of `ReceiptMatchResult` is not
  modelled: no claim mentions it and nothing downstream in the matcher
  reads it back, except `candidate["customer_id"]`, which is modelled by
  the `customer_id` component of `CalcScores`.
-/

/-- Python strings are modelled as lists of characters. -/
abbrev Str : Type := List Char

/-! ### Character-level helpers (ASCII model of Python case/class tests) -/

/-- ASCII uppercase letter test. -/
def isUpperAZ (c : Char) : Bool := 'A' ≤ c && c ≤ 'Z'

/-- ASCII lowercase letter test. -/
def isLowerAZ (c : Char) : Bool := 'a' ≤ c && c ≤ 'z'

/-- ASCII digit test (Python `[0-9]` and the digits accepted by `float`). -/
def isDigitCh (c : Char) : Bool := '0' ≤ c && c ≤ '9'

/-- Model of Python `str.upper` on a single character (ASCII range). -/
def upperChar (c : Char) : Char :=
  if isLowerAZ c then Char.ofNat (c.toNat - 32) else c

/-- Model of Python `str.lower` on a single character (ASCII range). -/
def lowerChar (c : Char) : Char :=
  if isUpperAZ c then Char.ofNat (c.toNat + 32) else c

/-- Python whitespace (the class `\s` and the characters stripped by
`str.strip`): space, tab, newline, vertical tab, form feed, carriage
return. -/
def pyIsSpace (c : Char) : Bool :=
  c = ' ' || c = '\t' || c = '\n' || c = '\x0b' || c = '\x0c' || c = '\r'

/-- Python regex word character `\w` (ASCII part): letters, digits,
underscore. -/
def isWordCh (c : Char) : Bool :=
  isUpperAZ c || isLowerAZ c || isDigitCh c || c = '_'

/-! ### String-level helpers -/

/-- Fueled worker for `replaceSub`; the fuel dominates the number of
characters still to be scanned. -/
def replaceSubGo (pat rep : Str) : Nat → Str → Str
  | _, [] => []
  | 0, s => s
  | fuel + 1, c :: cs =>
    if pat ≠ [] ∧ pat.isPrefixOf (c :: cs) then
      rep ++ replaceSubGo pat rep fuel ((c :: cs).drop pat.length)
    else
      c :: replaceSubGo pat rep fuel cs

/-- Model of Python `str.replace(pat, rep)`: replace every non-overlapping
occurrence of `pat`, scanning left to right.  (All patterns used by the
source are non-empty; an empty pattern is treated as no match so that the
function is total.) -/
def replaceSub (pat rep : Str) (s : Str) : Str :=
  replaceSubGo pat rep s.length s

/-- Model of Python `str.strip()`: remove leading and trailing whitespace. -/
def pyStrip (s : Str) : Str :=
  ((s.dropWhile pyIsSpace).reverse.dropWhile pyIsSpace).reverse

/-- Worker for `pySplit`, carrying the current (reversed) word. -/
def pySplitGo (cur : Str) : Str → List Str
  | [] => if cur = [] then [] else [cur.reverse]
  | c :: cs =>
    if pyIsSpace c then
      if cur = [] then pySplitGo [] cs else cur.reverse :: pySplitGo [] cs
    else pySplitGo (c :: cur) cs

/-- Model of Python `str.split()` (no argument): split on runs of
whitespace, discarding empty pieces. -/
def pySplit (s : Str) : List Str := pySplitGo [] s

/-- Model of Python `str.isdigit()` (ASCII part): non-empty and all
digits. -/
def pyIsDigitStr (s : Str) : Bool := s ≠ [] && s.all isDigitCh

/-! ### `normalizers.normalize_iban` -/

/-- Model of `normalize_iban` (`normalizers.py`): drop spaces and hyphens,
uppercase, and in the part after the first four characters replace the
OCR-confusable `O` by `0` and `I`/`l` by `1`. -/
def normalize_iban (iban : Option Str) : Str :=
  match iban with
  | none => []
  | some s =>
    if s = [] then []
    else
      let normalized := (replaceSub ['-'] [] (replaceSub [' '] [] s)).map upperChar
      if 4 ≤ normalized.length then
        let country_code := normalized.take 2
        let check_digits := (normalized.drop 2).take 2
        let account_part := normalized.drop 4
        let account_part :=
          replaceSub ['l'] ['1'] (replaceSub ['I'] ['1'] (replaceSub ['O'] ['0'] account_part))
        country_code ++ check_digits ++ account_part
      else normalized

/-- The space/hyphen removal and uppercasing prefix of `normalize_iban`. -/
def cleanedIban (s : Str) : Str :=
  (replaceSub ['-'] [] (replaceSub [' '] [] s)).map upperChar

/-- Character-level form of the account-part OCR substitution chain of
`normalize_iban` (`O`→`0`, `I`→`1`, `l`→`1`). -/
def ibanFixChar (c : Char) : Char :=
  if c = 'O' then '0' else if c = 'I' then '1' else if c = 'l' then '1' else c

/-! ### `normalizers.normalize_name` -/

/-- Substitution table of `normalize_name` folding Turkish letters to
ASCII, in the source's dictionary order. -/
def turkishNamePairs : List (Char × Char) :=
  [('ı', 'I'), ('İ', 'I'), ('ş', 'S'), ('Ş', 'S'), ('ğ', 'G'), ('Ğ', 'G'),
   ('ü', 'U'), ('Ü', 'U'), ('ö', 'O'), ('Ö', 'O'), ('ç', 'C'), ('Ç', 'C')]

/-- Worker for `collapseWs`; the flag records whether the previous
character belonged to a whitespace run already emitted as one space. -/
def collapseWsGo (inRun : Bool) : Str → Str
  | [] => []
  | c :: cs =>
    if pyIsSpace c then
      if inRun then collapseWsGo true cs else ' ' :: collapseWsGo true cs
    else c :: collapseWsGo false cs

/-- Model of the regex substitution `re.sub(r"\s+", " ", s)`: every maximal
run of whitespace becomes a single space. -/
def collapseWs (s : Str) : Str := collapseWsGo false s

/-- Model of `normalize_name` (`normalizers.py`): uppercase, fold Turkish
characters, collapse whitespace runs, trim. -/
def normalize_name (name : Option Str) : Str :=
  match name with
  | none => []
  | some s =>
    if s = [] then []
    else
      let n := s.map upperChar
      let n := turkishNamePairs.foldl (fun acc p => replaceSub [p.1] [p.2] acc) n
      pyStrip (collapseWs n)

/-! ### `normalizers.normalize_amount` -/

/-- Digit-and-underscore run accepted by Python `float` (an underscore is
allowed only between two digits).  Accumulates the digits seen so far and
returns them with the unconsumed remainder. -/
def parseDigsGo (acc : List Char) : Str → List Char × Str
  | '_' :: d :: rest =>
    if isDigitCh d then parseDigsGo (acc ++ [d]) rest else (acc, '_' :: d :: rest)
  | d :: rest =>
    if isDigitCh d then parseDigsGo (acc ++ [d]) rest else (acc, d :: rest)
  | [] => (acc, [])

/-- Parse a non-empty digit run (with embedded underscores) or fail. -/
def parseDigits (s : Str) : Option (List Char × Str) :=
  match s with
  | d :: rest => if isDigitCh d then some (parseDigsGo [d] rest) else none
  | [] => none

/-- Numeric value of a digit list. -/
def digitsToNat (ds : List Char) : Nat :=
  ds.foldl (fun a c => a * 10 + (c.toNat - 48)) 0

/-- Optional exponent suffix of a Python float literal followed by end of
input; returns the signed exponent, or `none` if the remainder is not a
valid (possibly empty) exponent. -/
def pyFloatExp : Str → Option Int
  | [] => some 0
  | e :: rest =>
    if e = 'e' ∨ e = 'E' then
      let sr : Int × Str :=
        match rest with
        | '+' :: r => (1, r)
        | '-' :: r => (-1, r)
        | r => (1, r)
      match parseDigits sr.2 with
      | some (eds, r4) => if r4 = [] then some (sr.1 * digitsToNat eds) else none
      | none => none
    else none

/-- Assemble the value of a parsed float literal: sign, integer digits,
fractional digits, and a remainder that must be a valid exponent. -/
def pyFloatFinish (sgn : ℚ) (ids fds : List Char) (rest : Str) : Option ℚ :=
  match pyFloatExp rest with
  | some e =>
    some (sgn * ((digitsToNat ids : ℚ) + (digitsToNat fds : ℚ) / 10 ^ fds.length) * 10 ^ e)
  | none => none

/-- Model of Python `float(str)` restricted to finite decimal literals:
optional surrounding whitespace, optional sign, digits with an optional
fractional part (at least one digit overall, underscores allowed between
digits), optional exponent.  The special spellings `inf`/`nan`, which the
matching engine never produces, are outside the rational model and map to
`none`. -/
def pyFloat (s0 : Str) : Option ℚ :=
  let s := pyStrip s0
  let sgns : ℚ × Str :=
    match s with
    | '+' :: r => (1, r)
    | '-' :: r => (-1, r)
    | r => (1, r)
  match parseDigits sgns.2 with
  | some (ids, r1) =>
    match r1 with
    | '.' :: r2 =>
      match parseDigits r2 with
      | some (fds, r3) => pyFloatFinish sgns.1 ids fds r3
      | none => pyFloatFinish sgns.1 ids [] r2
    | r1' => pyFloatFinish sgns.1 ids [] r1'
  | none =>
    match sgns.2 with
    | '.' :: r2 =>
      match parseDigits r2 with
      | some (fds, r3) => pyFloatFinish sgns.1 [] fds r3
      | none => none
    | _ => none

/-- Index of the last occurrence of `c` in `t` (meaningful when `c ∈ t`),
as used by `str.rsplit(c, 1)`. -/
def lastIdxOf (c : Char) (t : Str) : Nat :=
  t.length - 1 - t.reverse.findIdx (· = c)

/-- Substring after the first occurrence of `c`, as in
`str.split(c)[1]` when `c` occurs exactly once. -/
def afterFirst (c : Char) (t : Str) : Str :=
  (t.dropWhile (fun x => x ≠ c)).drop 1

/-- Separator disambiguation step of `normalize_amount`: decide which of
`,` and `.` is the decimal separator and rewrite the string to use `.`. -/
def sepFix (t : Str) : Str :=
  if ',' ∈ t ∧ '.' ∈ t then
    let i := lastIdxOf ',' t
    let pre := t.take i
    let post := t.drop (i + 1)
    if post.length ≤ 2 then replaceSub ['.'] [] pre ++ '.' :: post
    else replaceSub [','] ['.'] (replaceSub ['.'] [] t)
  else if ',' ∈ t then
    if t.count ',' = 1 ∧ (afterFirst ',' t).length ≤ 2 then replaceSub [','] ['.'] t
    else replaceSub [','] [] t
  else if '.' ∈ t then
    if t.count '.' = 1 ∧ (afterFirst '.' t).length ≤ 2 then t
    else replaceSub ['.'] [] t
  else t

/-- Currency stripping step of `normalize_amount`: remove `TL`, `TRY` and
the lira sign, then trim. -/
def currencyStrip (s : Str) : Str :=
  pyStrip (replaceSub ['₺'] [] (replaceSub ['T', 'R', 'Y'] [] (replaceSub ['T', 'L'] [] s)))

/-- OCR letter-to-zero correction step of `normalize_amount`. -/
def ocrOzero (s : Str) : Str :=
  replaceSub ['o'] ['0'] (replaceSub ['O'] ['0'] s)

/-- Model of `normalize_amount` (`normalizers.py`): strip currency tokens,
correct `O`→`0`, disambiguate separators, parse as a float; `none` on any
failure. -/
def normalize_amount (amount_text : Option Str) : Option ℚ :=
  match amount_text with
  | none => none
  | some s =>
    if s = [] then none
    else pyFloat (sepFix (ocrOzero (currencyStrip s)))

/-! ### `fuzzy.levenshtein_distance` -/

/-- Inner loop of `levenshtein_distance`: one step of the dynamic-programming
row update.  `prev` is the tail of the previous row aligned so that its
first two entries are `previous_row[j]` and `previous_row[j+1]`, and `left`
is the entry `current_row[j]` just computed. -/
def levInner (c1 : Char) : Str → List Nat → Nat → List Nat
  | c2 :: cs, p0 :: p1 :: ps, left =>
    let insertions := p1 + 1
    let deletions := left + 1
    let substitutions := p0 + (if c1 ≠ c2 then 1 else 0)
    let v := min insertions (min deletions substitutions)
    v :: levInner c1 cs (p1 :: ps) v
  | _, _, _ => []

/-- Outer loop of `levenshtein_distance` over the characters of `s1`,
threading the previous row; `i` is the 0-based index of `c1` in `s1`. -/
def levOuter (s2 : Str) : Str → Nat → List Nat → List Nat
  | [], _, prev => prev
  | c1 :: rest, i, prev => levOuter s2 rest (i + 1) ((i + 1) :: levInner c1 s2 prev (i + 1))

/-- Body of `levenshtein_distance` after the defensive swap, for
`s2.length ≤ s1.length`; the result is the last entry of the final row
(Python `previous_row[-1]`). -/
def levenshteinCore (s1 s2 : Str) : Nat :=
  if s2.length = 0 then s1.length
  else
    let final := levOuter s2 s1 0 (List.range (s2.length + 1))
    final.getD (final.length - 1) 0

/-- Model of `levenshtein_distance` (`fuzzy.py`): classic edit distance via
row-by-row dynamic programming, swapping the arguments so that the second
is the shorter. -/
def levenshtein_distance (s1 s2 : Str) : Nat :=
  if s1.length < s2.length then levenshteinCore s2 s1 else levenshteinCore s1 s2

/-- Model of `levenshtein_similarity` (`fuzzy.py`): the edit distance
normalised by the longer length, as a score in `[0,1]`. -/
def levenshtein_similarity (s1 s2 : Str) : ℚ :=
  if s1 = [] ∧ s2 = [] then 1
  else if s1 = [] ∨ s2 = [] then 0
  else
    let max_len := max s1.length s2.length
    if max_len = 0 then 1
    else 1 - (levenshtein_distance s1 s2 : ℚ) / (max_len : ℚ)

/-! ### `fuzzy.jaccard_similarity` -/

/-- Character n-gram set of a string (`get_ngrams` in `fuzzy.py`): the set
of all length-`n` slices, or the singleton of the whole string when it is
shorter than `n`. -/
def get_ngrams (text : Str) (n : Nat) : Finset Str :=
  if text.length < n then {text}
  else ((List.range (text.length - n + 1)).map (fun i => (text.drop i).take n)).toFinset

/-- Model of `jaccard_similarity` (`fuzzy.py`): Jaccard overlap of the
case-folded character n-gram sets (default bigrams). -/
def jaccard_similarity (s1 s2 : Str) (n_gram : Nat := 2) : ℚ :=
  if s1 = [] ∧ s2 = [] then 1
  else if s1 = [] ∨ s2 = [] then 0
  else
    let set1 := get_ngrams (s1.map lowerChar) n_gram
    let set2 := get_ngrams (s2.map lowerChar) n_gram
    let inter := (set1 ∩ set2).card
    let uni := (set1 ∪ set2).card
    if uni = 0 then 1 else (inter : ℚ) / (uni : ℚ)

/-- Model of `name_similarity` (`fuzzy.py`): weighted mix of edit and
n-gram similarity, zero when either side is empty. -/
def name_similarity (name1 name2 : Str) : ℚ :=
  if name1 = [] ∨ name2 = [] then 0
  else levenshtein_similarity name1 name2 * (6/10) + jaccard_similarity name1 name2 * (4/10)

/-! ### `fuzzy.extract_address_keywords`

The source extracts keywords with three `re.findall` patterns for
locality suffixes, a word pattern, and three numbered-unit patterns.  Each
regex is hand-compiled to an equivalent scanning function; the analysis
below each definition records why the compiled form is equivalent to the
backtracking semantics of the Python pattern. -/

/-- Substitution table applied to the uppercased address in
`extract_address_keywords` (`fuzzy.py`), in the source's dictionary
order. -/
def turkishAddrPairs : List (Char × Char) :=
  [('İ', 'I'), ('Ş', 'S'), ('Ğ', 'G'), ('Ü', 'U'), ('Ö', 'O'), ('Ç', 'C'),
   ('ı', 'I'), ('ş', 'S'), ('ğ', 'G'), ('ü', 'U'), ('ö', 'O'), ('ç', 'C')]

/-- Fueled worker for `ocrLetterFix`. -/
def ocrLetterFixGo (mid rep : Char) : Nat → Str → Str
  | 0, s => s
  | _ + 1, [] => []
  | fuel + 1, c1 :: cs =>
    match cs with
    | c2 :: c3 :: rest =>
      if isUpperAZ c1 ∧ c2 = mid ∧ isUpperAZ c3 then
        c1 :: rep :: c3 :: ocrLetterFixGo mid rep fuel rest
      else c1 :: ocrLetterFixGo mid rep fuel (c2 :: c3 :: rest)
    | _ => c1 :: cs

/-- Model of `re.sub(r'([A-Z])<mid>([A-Z])', r'\1<rep>\2', s)`: replace the
middle character of every `letter-mid-letter` triple, scanning left to
right and continuing after each replaced (non-overlapping) match. -/
def ocrLetterFix (mid rep : Char) (s : Str) : Str :=
  ocrLetterFixGo mid rep s.length s

/-- Maximal `\w+` run at the head of the string. -/
def wordRun (s : Str) : Str := s.takeWhile isWordCh

/-- Maximal `\s+` run at the head of the string. -/
def spaceRun (s : Str) : Str := s.takeWhile pyIsSpace

/-- Length consumed by the optional suffix `(?:ALLE)?(?:SI)?[\.]?` of the
MAH pattern (each optional piece is greedy and nothing follows it, so each
is taken exactly when it is literally present). -/
def mahTailLen (t : Str) : Nat :=
  let a := if ['A', 'L', 'L', 'E'].isPrefixOf t then 4 else 0
  let t1 := t.drop a
  let b := if ['S', 'I'].isPrefixOf t1 then 2 else 0
  let t2 := t1.drop b
  let c := if ['.'].isPrefixOf t2 then 1 else 0
  a + b + c

/-- Length consumed by `(?:AK)?[\.]?` after the literal `SOK`. -/
def sokTailLen (t : Str) : Nat :=
  let a := if ['A', 'K'].isPrefixOf t then 2 else 0
  let c := if ['.'].isPrefixOf (t.drop a) then 1 else 0
  a + c

/-- Length consumed by `(?:DESI)?[\.]?` after the literal `CAD`. -/
def cadTailLen (t : Str) : Nat :=
  let a := if ['D', 'E', 'S', 'I'].isPrefixOf t then 4 else 0
  let c := if ['.'].isPrefixOf (t.drop a) then 1 else 0
  a + c

/-- Attempt to match `(\w+(?:\s+\w+)?)\s+MAH(?:ALLE)?(?:SI)?[\.]?` at the
start of `s`, returning the group-1 text and the total match length.

Compilation of the backtracking semantics: since `\w` and `\s` match
disjoint character classes and each `\w+`/`\s+` is followed by the other
class (or by the literal `MAH`, made of word characters), every quantifier
effectively consumes a maximal run.  The greedy optional group
`(?:\s+\w+)?` is attempted first (attempt A below); if the literal `MAH`
does not follow it, the regex backtracks to the empty alternative
(attempt B), which requires the run after the first whitespace to start
with `MAH`. -/
def tryMah (s : Str) : Option (Str × Nat) :=
  let w1 := wordRun s
  if w1 = [] then none
  else
    let r1 := s.drop w1.length
    let s1 := spaceRun r1
    if s1 = [] then none
    else
      let r2 := r1.drop s1.length
      let w2 := wordRun r2
      let attemptA : Option (Str × Nat) :=
        if w2 = [] then none
        else
          let r3 := r2.drop w2.length
          let s2 := spaceRun r3
          if s2 = [] then none
          else
            let r4 := r3.drop s2.length
            if ['M', 'A', 'H'].isPrefixOf r4 then
              let e := mahTailLen (r4.drop 3)
              some (w1 ++ s1 ++ w2,
                w1.length + s1.length + w2.length + s2.length + 3 + e)
            else none
      match attemptA with
      | some m => some m
      | none =>
        if ['M', 'A', 'H'].isPrefixOf r2 then
          let e := mahTailLen (r2.drop 3)
          some (w1, w1.length + s1.length + 3 + e)
        else none

/-- Attempt to match `(\w+)\s+<lit><tail>` at the start of `s` (the SOK and
CAD patterns), returning the group-1 text and the total match length. -/
def trySuffixPat (lit : Str) (tailLen : Str → Nat) (s : Str) : Option (Str × Nat) :=
  let w1 := wordRun s
  if w1 = [] then none
  else
    let r1 := s.drop w1.length
    let s1 := spaceRun r1
    if s1 = [] then none
    else
      let r2 := r1.drop s1.length
      if lit.isPrefixOf r2 then
        let e := tailLen (r2.drop lit.length)
        some (w1, w1.length + s1.length + lit.length + e)
      else none

/-- Attempt to match `<lit>[:\s]*([0-9]+)` at the start of `s`, returning
the captured digits and the total match length.  The separator class and
the digit class are disjoint, so both quantifiers consume maximal runs. -/
def tryNumPat (lit : Str) (s : Str) : Option (Str × Nat) :=
  if lit.isPrefixOf s then
    let r := s.drop lit.length
    let seps := r.takeWhile (fun c => c = ':' || pyIsSpace c)
    let r2 := r.drop seps.length
    let digs := r2.takeWhile isDigitCh
    if digs = [] then none
    else some (digs, lit.length + seps.length + digs.length)
  else none

/-- Fueled worker for `scanGroups`. -/
def scanGroupsGo (tryf : Str → Option (Str × Nat)) : Nat → Str → List Str
  | 0, _ => []
  | _ + 1, [] => []
  | fuel + 1, c :: cs =>
    match tryf (c :: cs) with
    | some (g, n) => g :: scanGroupsGo tryf fuel ((c :: cs).drop (max n 1))
    | none => scanGroupsGo tryf fuel cs

/-- Model of `re.findall` for a single-group pattern: scan left to right,
trying the pattern at each position; on a match, record the group and
resume after the matched text.  (All patterns used here match at least one
character; `max n 1` only guards totality.) -/
def scanGroups (tryf : Str → Option (Str × Nat)) (s : Str) : List Str :=
  scanGroupsGo tryf s.length s

/-- Keywords contributed by one locality-suffix pattern: each match's group
is whitespace-split and words longer than two characters are kept. -/
def patternKeywords (tryf : Str → Option (Str × Nat)) (t : Str) : List Str :=
  (scanGroups tryf t).flatMap (fun g => (pySplit g).filter (fun w => 2 < w.length))

/-- Maximal word-character runs of a string, in order. -/
def wordRunsGo (cur : Str) : Str → List Str
  | [] => if cur = [] then [] else [cur.reverse]
  | c :: cs =>
    if isWordCh c then wordRunsGo (c :: cur) cs
    else if cur = [] then wordRunsGo [] cs
    else cur.reverse :: wordRunsGo [] cs

/-- Model of `re.findall(r'\b([A-Z]{3,15})\b', t)`: a word-character run
matches exactly when it consists solely of uppercase letters and its
length is between 3 and 15 (word boundaries only exist at the edges of
maximal runs, so no other substring can match). -/
def upperWordMatches (t : Str) : List Str :=
  (wordRunsGo [] t).filter (fun w => w.all isUpperAZ && 3 ≤ w.length && w.length ≤ 15)

/-- Stopword list of `extract_address_keywords` (`fuzzy.py`). -/
def addrStopwords : List Str :=
  [String.toList "KIRA", String.toList "RENT", String.toList "KASIM",
   String.toList "ARALIK", String.toList "OCAK", String.toList "SUBAT",
   String.toList "MART", String.toList "NISAN", String.toList "MAYIS",
   String.toList "HAZIRAN", String.toList "TEMMUZ", String.toList "AGUSTOS",
   String.toList "EYLUL", String.toList "EKIM", String.toList "TL",
   String.toList "TRY", String.toList "USD", String.toList "EUR",
   String.toList "FAST", String.toList "MESAJ", String.toList "HAVALE"]

/-- Keywords from the general word pattern: uppercase 3–15 letter words
that are neither stopwords nor all digits. -/
def generalKeywords (t : Str) : List Str :=
  (upperWordMatches t).filter (fun w => w ∉ addrStopwords ∧ ¬ pyIsDigitStr w)

/-- Keywords from one numbered-unit pattern: each captured digit run `n`
becomes `<tag>_<n>`. -/
def numPatKeywords (lit tag : Str) (t : Str) : List Str :=
  (scanGroups (tryNumPat lit) t).map (fun n => tag ++ '_' :: n)

/-- Normalisation prefix of `extract_address_keywords`: uppercase, fold
Turkish characters, and apply the two OCR corrections
`([A-Z])0([A-Z]) → \1O\2` and `([A-Z])1([A-Z]) → \1I\2`. -/
def addrNormalize (address : Str) : Str :=
  let u := address.map upperChar
  let u := turkishAddrPairs.foldl (fun acc p => replaceSub [p.1] [p.2] acc) u
  ocrLetterFix '1' 'I' (ocrLetterFix '0' 'O' u)

/-- Model of `extract_address_keywords` (`fuzzy.py`).  The source returns
`list(set(keywords))`, whose order is unspecified, and its only consumer
converts it back to a set; the model therefore returns the set itself. -/
def extract_address_keywords (address : Str) : Finset Str :=
  if address = [] then ∅
  else
    let u := addrNormalize address
    (patternKeywords tryMah u
      ++ patternKeywords (trySuffixPat ['S', 'O', 'K'] sokTailLen) u
      ++ patternKeywords (trySuffixPat ['C', 'A', 'D'] cadTailLen) u
      ++ generalKeywords u
      ++ numPatKeywords (String.toList "DAIRE") (String.toList "DAIRE") u
      ++ numPatKeywords (String.toList "KAT") (String.toList "KAT") u
      ++ numPatKeywords (String.toList "NO") (String.toList "NO") u).toFinset

/-- Model of `address_similarity` (`fuzzy.py`): Jaccard similarity of the
two keyword sets; Levenshtein similarity of the raw strings when both
keyword sets are empty; `0` when exactly one keyword set is empty or an
input is empty. -/
def address_similarity (address1 address2 : Str) : ℚ :=
  if address1 = [] ∨ address2 = [] then 0
  else
    let keywords1 := extract_address_keywords address1
    let keywords2 := extract_address_keywords address2
    if keywords1 = ∅ ∧ keywords2 = ∅ then levenshtein_similarity address1 address2
    else if keywords1 = ∅ ∨ keywords2 = ∅ then 0
    else
      let inter := (keywords1 ∩ keywords2).card
      let uni := (keywords1 ∪ keywords2).card
      if uni = 0 then 0 else (inter : ℚ) / (uni : ℚ)

/-! ### `matcher.py`: data model -/

/-- Property-owner record; `id` is accessed as `owner["id"]` in the source
(a required key), the other fields through `.get`. -/
structure Owner where
  id : Int
  iban : Option Str := none
  full_name : Option Str := none
deriving DecidableEq

/-- Rental-property record; every field is accessed through `.get`. -/
structure Property where
  id : Option Int := none
  owner_id : Option Int := none
  price : Option ℚ := none
  address : Option Str := none
deriving DecidableEq

/-- Customer (tenant) record; every field is accessed through `.get`. -/
structure Customer where
  id : Option Int := none
  full_name : Option Str := none
deriving DecidableEq

/-- Extracted OCR field map consumed by `match_receipt`; all keys are
optional. -/
structure OcrData where
  receiver_account : Option Str := none
  receiver_iban : Option Str := none
  receiver_name : Option Str := none
  recipient : Option Str := none
  sender_name : Option Str := none
  sender : Option Str := none
  amount_text : Option Str := none
  amount : Option Str := none
  description : Option Str := none
deriving DecidableEq

/-- Reason a candidate was generated (`match_reason` in `_find_candidates`):
the literal `"iban_exact"` or the format string
`f"name_similarity_{similarity:.2f}"` carrying the similarity. -/
inductive MatchReason where
  | iban_exact
  | name_sim (similarity : ℚ)
deriving DecidableEq

/-- Candidate (owner, optional property) pairing generated by
`_find_candidates`. -/
structure Candidate where
  owner : Owner
  property : Option Property := none
  match_reason : MatchReason
deriving DecidableEq

/-- Diagnostic messages of `match_receipt`, one constructor per literal
format string of the source, carrying the interpolated score. -/
inductive MatchMessage where
  | noMatch
  | matchedHigh (score : ℚ)
  | matchedStd (score : ℚ)
  | lowConfidence (score : ℚ)
deriving DecidableEq

/-- Model of the result dataclass `ReceiptMatchResult` (without the
`matching_details` debug bag, see the header comment). -/
structure ReceiptMatchResult where
  owner_id : Option Int := none
  customer_id : Option Int := none
  property_id : Option Int := none
  match_status : String := "pending"
  confidence_score : ℚ := 0
  iban_match_score : ℚ := 0
  amount_match_score : ℚ := 0
  name_match_score : ℚ := 0
  address_match_score : ℚ := 0
  sender_match_score : ℚ := 0
  messages : List MatchMessage := []
deriving DecidableEq

/-- Entry of the `MATCHING_CRITERIA` table. -/
structure CriterionSpec where
  priority : Nat
  weight : ℚ
  threshold : ℚ
deriving DecidableEq

/-- The `MATCHING_CRITERIA` constant of `matcher.py`. -/
def MATCHING_CRITERIA : List (String × CriterionSpec) :=
  [("iban", ⟨1, 95, 95/100⟩), ("amount", ⟨2, 85, 80/100⟩), ("name", ⟨3, 75, 70/100⟩),
   ("address", ⟨4, 70, 60/100⟩), ("sender", ⟨5, 60, 60/100⟩)]

/-- Dictionary lookup `MATCHING_CRITERIA.get(criterion)`. -/
def criteriaLookup (k : String) : Option CriterionSpec :=
  (MATCHING_CRITERIA.find? (fun p => p.1 == k)).map (fun p => p.2)

/-! ### `matcher._calculate_match_scores` -/

/-- Final state of the per-candidate `scores` dictionary built by
`_calculate_match_scores`: the five criterion entries plus the optional
`"_customer_id"` entry (present exactly when `customer_id` is `some`). -/
structure CalcScores where
  iban : ℚ := 0
  amount : ℚ := 0
  name : ℚ := 0
  address : ℚ := 0
  sender : ℚ := 0
  customer_id : Option Int := none
deriving DecidableEq

/-- The `scores` dictionary as the association list that
`_calculate_total_confidence` iterates over, in insertion order. -/
def scoresEntries (s : CalcScores) : List (String × ℚ) :=
  [("iban", s.iban), ("amount", s.amount), ("name", s.name),
   ("address", s.address), ("sender", s.sender)]
  ++ (match s.customer_id with
      | some cid => [("_customer_id", (cid : ℚ))]
      | none => [])

/-- Last `n` characters of a string (Python `s[-n:]` for `n ≤ len(s)`). -/
def lastChars (n : Nat) (s : Str) : Str := s.drop (s.length - n)

/-- IBAN criterion of `_calculate_match_scores`: exact match scores 1,
agreement of the last four characters scores 0.5. -/
def ibanCriterion (receiver_iban owner_iban : Str) : ℚ :=
  if receiver_iban ≠ [] ∧ owner_iban ≠ [] then
    if receiver_iban = owner_iban then 1
    else if 4 ≤ receiver_iban.length ∧ 4 ≤ owner_iban.length
        ∧ lastChars 4 receiver_iban = lastChars 4 owner_iban then 1/2
    else 0
  else 0

/-- Amount criterion of `_calculate_match_scores`: tolerance-banded score
against the property price (both the parsed amount and the price must be
present and truthy, i.e. nonzero). -/
def amountCriterion (amount : Option ℚ) (property_obj : Option Property) : ℚ :=
  match amount, property_obj with
  | some a, some p =>
    if a ≠ 0 then
      match p.price with
      | some property_price =>
        if property_price ≠ 0 then
          let tolerance := property_price * (5/100)
          let diff := |a - property_price|
          if diff ≤ tolerance then 1 - diff / tolerance * (2/10)
          else if diff ≤ tolerance * 2 then 1/2
          else 0
        else 0
      | none => 0
    else 0
  | _, _ => 0

/-- Name criterion of `_calculate_match_scores`. -/
def nameCriterion (receiver_name owner_name : Str) : ℚ :=
  if receiver_name ≠ [] ∧ owner_name ≠ [] then name_similarity receiver_name owner_name
  else 0

/-- Address criterion of `_calculate_match_scores`: description against the
property address, both required non-empty. -/
def addressCriterion (description : Str) (property_obj : Option Property) : ℚ :=
  match property_obj with
  | some p =>
    if description ≠ [] then
      let property_address := p.address.getD []
      if property_address ≠ [] then address_similarity description property_address
      else 0
    else 0
  | none => 0

/-- One iteration of the sender criterion loop of
`_calculate_match_scores`: customers with an empty normalised name are
skipped, and a strictly larger similarity replaces the running best and
records that customer's id. -/
def senderStep (sender_name : Str) (acc : ℚ × Option Int) (c : Customer) : ℚ × Option Int :=
  let customer_name := normalize_name c.full_name
  if customer_name ≠ [] then
    let similarity := name_similarity sender_name customer_name
    if acc.1 < similarity then (similarity, c.id) else acc
  else acc

/-- Sender criterion loop of `_calculate_match_scores`: running maximum of
the name similarity against each customer with a non-empty normalised
name, recording the id of the last customer that strictly improved it. -/
def senderFold (sender_name : Str) (customers : List Customer) : ℚ × Option Int :=
  if sender_name = [] then (0, none)
  else customers.foldl (senderStep sender_name) (0, none)

/-- Similarity of the sender name against one customer (the claim's view
of the sender criterion). -/
def senderContribution (sender_name : Str) (c : Customer) : ℚ :=
  name_similarity sender_name (normalize_name c.full_name)

/-- Maximum sender similarity over the entire customer list. -/
def senderMax (sender_name : Str) (customers : List Customer) : ℚ :=
  customers.foldl (fun a c => max a (senderContribution sender_name c)) 0

/-- Model of `_calculate_match_scores` (`matcher.py`).  The unused
`ocr_data` parameter of the source is omitted. -/
def _calculate_match_scores (receiver_iban receiver_name sender_name : Str)
    (amount : Option ℚ) (description : Str) (owner : Owner)
    (property_obj : Option Property) (customers : List Customer) : CalcScores :=
  let owner_iban := normalize_iban owner.iban
  let owner_name := normalize_name owner.full_name
  let sf := senderFold sender_name customers
  { iban := ibanCriterion receiver_iban owner_iban
    amount := amountCriterion amount property_obj
    name := nameCriterion receiver_name owner_name
    address := addressCriterion description property_obj
    sender := sf.1
    customer_id := sf.2 }

/-! ### `matcher._calculate_total_confidence` -/

/-- Model of `_calculate_total_confidence` (`matcher.py`): weighted average
over the entries whose key is a criterion of `MATCHING_CRITERIA`, scaled
to `[0,100]`. -/
def _calculate_total_confidence (scores : List (String × ℚ)) : ℚ :=
  let acc := scores.foldl (fun (a : ℚ × ℚ) kv =>
    match criteriaLookup kv.1 with
    | some spec => (a.1 + spec.weight, a.2 + kv.2 * spec.weight)
    | none => a) (0, 0)
  if acc.1 = 0 then 0 else acc.2 / acc.1 * 100

/-! ### `matcher._find_candidates` -/

/-- Candidates contributed by a single owner in `_find_candidates`: the
exact-IBAN rule, else the name-similarity rule. -/
def ownerCandidates (receiver_iban receiver_name : Str) (properties : List Property)
    (owner : Owner) : List Candidate :=
  let owner_iban := normalize_iban owner.iban
  let owner_name := normalize_name owner.full_name
  if receiver_iban ≠ [] ∧ owner_iban ≠ [] ∧ receiver_iban = owner_iban then
    let owner_properties := properties.filter (fun p => p.owner_id == some owner.id)
    if owner_properties ≠ [] then
      owner_properties.map (fun p =>
        { owner := owner, property := some p, match_reason := .iban_exact })
    else [{ owner := owner, match_reason := .iban_exact }]
  else if receiver_name ≠ [] ∧ owner_name ≠ [] then
    let similarity := name_similarity receiver_name owner_name
    if 7/10 ≤ similarity then
      (properties.filter (fun p => p.owner_id == some owner.id)).map (fun p =>
        { owner := owner, property := some p, match_reason := .name_sim similarity })
    else []
  else []

/-- Model of `_find_candidates` (`matcher.py`): the per-owner candidate
lists concatenated in owner order.  (The `amount` and `description`
parameters of the source are unused by its body and omitted here.) -/
def _find_candidates (receiver_iban receiver_name : Str) (owners : List Owner)
    (properties : List Property) : List Candidate :=
  owners.flatMap (ownerCandidates receiver_iban receiver_name properties)

/-- Candidates contributed by one owner according to the candidate-generation
rules as amended (claim C3): rule (a), on a non-empty receiver IBAN equal to
the owner's normalised IBAN, emits one candidate per owned property or a
single property-less candidate; rule (b), on a non-empty receiver name with
similarity at least 0.7, emits one candidate per owned property and nothing
when the owner owns none; (a) takes precedence over (b). -/
def ownerCandidatesSpec (receiver_iban receiver_name : Str) (properties : List Property)
    (owner : Owner) : List Candidate :=
  if receiver_iban ≠ [] ∧ receiver_iban = normalize_iban owner.iban then
    let owner_properties := properties.filter (fun p => p.owner_id == some owner.id)
    if owner_properties ≠ [] then
      owner_properties.map (fun p =>
        { owner := owner, property := some p, match_reason := .iban_exact })
    else [{ owner := owner, match_reason := .iban_exact }]
  else if receiver_name ≠ []
      ∧ 7/10 ≤ name_similarity receiver_name (normalize_name owner.full_name) then
    (properties.filter (fun p => p.owner_id == some owner.id)).map (fun p =>
      { owner := owner, property := some p,
        match_reason := .name_sim (name_similarity receiver_name
          (normalize_name owner.full_name)) })
  else []

/-- The candidate-generation rules exactly as claim C3 states them: its
rule (b) additionally emits a single property-less candidate when the
owner owns no properties.  Used only to exhibit where the claim diverges
from the code. -/
def ownerCandidatesClaimed (receiver_iban receiver_name : Str) (properties : List Property)
    (owner : Owner) : List Candidate :=
  if receiver_iban ≠ [] ∧ receiver_iban = normalize_iban owner.iban then
    let owner_properties := properties.filter (fun p => p.owner_id == some owner.id)
    if owner_properties ≠ [] then
      owner_properties.map (fun p =>
        { owner := owner, property := some p, match_reason := .iban_exact })
    else [{ owner := owner, match_reason := .iban_exact }]
  else if receiver_name ≠ []
      ∧ 7/10 ≤ name_similarity receiver_name (normalize_name owner.full_name) then
    let owner_properties := properties.filter (fun p => p.owner_id == some owner.id)
    if owner_properties ≠ [] then
      owner_properties.map (fun p =>
        { owner := owner, property := some p,
          match_reason := .name_sim (name_similarity receiver_name
            (normalize_name owner.full_name)) })
    else [{ owner := owner,
            match_reason := .name_sim (name_similarity receiver_name
              (normalize_name owner.full_name)) }]
  else []

/-- Candidate generation as amended (claim C3), over all owners in order. -/
def findCandidatesSpec (receiver_iban receiver_name : Str) (owners : List Owner)
    (properties : List Property) : List Candidate :=
  owners.flatMap (ownerCandidatesSpec receiver_iban receiver_name properties)

/-- Candidate generation exactly as claim C3 states it. -/
def findCandidatesClaimed (receiver_iban receiver_name : Str) (owners : List Owner)
    (properties : List Property) : List Candidate :=
  owners.flatMap (ownerCandidatesClaimed receiver_iban receiver_name properties)

/-! ### `matcher.match_receipt` -/

/-- Python `a or b` for an optional string `a` and a string `b`. -/
def pyOrStr (a : Option Str) (b : Str) : Str :=
  match a with
  | some s => if s ≠ [] then s else b
  | none => b

/-- The normalised inputs computed at the top of `match_receipt`:
receiver IBAN, receiver name, sender name, parsed amount, description. -/
def receiptInputs (ocr_data : OcrData) : Str × Str × Str × Option ℚ × Str :=
  (normalize_iban (some (pyOrStr ocr_data.receiver_account (ocr_data.receiver_iban.getD []))),
   normalize_name (some (pyOrStr ocr_data.receiver_name (ocr_data.recipient.getD []))),
   normalize_name (some (pyOrStr ocr_data.sender_name (ocr_data.sender.getD []))),
   normalize_amount (some (pyOrStr ocr_data.amount_text (ocr_data.amount.getD []))),
   ocr_data.description.getD [])

/-- A candidate together with its score dictionary and total confidence, as
annotated onto the candidate dictionary inside the loop of
`match_receipt`. -/
structure ScoredCandidate where
  cand : Candidate
  scores : CalcScores
  total_score : ℚ
deriving DecidableEq

/-- Scoring loop of `match_receipt`: annotate every candidate. -/
def scoreCandidates (receiver_iban receiver_name sender_name : Str) (amount : Option ℚ)
    (description : Str) (customers : List Customer) (cands : List Candidate) :
    List ScoredCandidate :=
  cands.map (fun c =>
    let sc := _calculate_match_scores receiver_iban receiver_name sender_name amount
      description c.owner c.property customers
    { cand := c, scores := sc,
      total_score := _calculate_total_confidence (scoresEntries sc) })

/-- Best-candidate selection of `match_receipt`: first candidate whose
total strictly exceeds the running best, starting from `(None, 0.0)`. -/
def pickBest (scored : List ScoredCandidate) : Option ScoredCandidate × ℚ :=
  scored.foldl (fun acc sc => if acc.2 < sc.total_score then (some sc, sc.total_score) else acc)
    (none, 0)

/-- The update function of the best-candidate fold of `match_receipt`. -/
def pickStep (acc : Option ScoredCandidate × ℚ) (sc : ScoredCandidate) :
    Option ScoredCandidate × ℚ :=
  if acc.2 < sc.total_score then (some sc, sc.total_score) else acc

/-- Candidate list computed by `match_receipt` from the normalised OCR
fields. -/
def receiptCandidates (ocr_data : OcrData) (owners : List Owner)
    (properties : List Property) : List Candidate :=
  _find_candidates (receiptInputs ocr_data).1 (receiptInputs ocr_data).2.1 owners properties

/-- Scored candidate list of `match_receipt`. -/
def receiptScored (ocr_data : OcrData) (owners : List Owner) (customers : List Customer)
    (properties : List Property) : List ScoredCandidate :=
  scoreCandidates (receiptInputs ocr_data).1 (receiptInputs ocr_data).2.1
    (receiptInputs ocr_data).2.2.1 (receiptInputs ocr_data).2.2.2.1
    (receiptInputs ocr_data).2.2.2.2 customers
    (receiptCandidates ocr_data owners properties)

/-- Best candidate and best score of `match_receipt`. -/
def receiptBest (ocr_data : OcrData) (owners : List Owner) (customers : List Customer)
    (properties : List Property) : Option ScoredCandidate × ℚ :=
  pickBest (receiptScored ocr_data owners customers properties)

/-- Model of `match_receipt` (`matcher.py`). -/
def match_receipt (ocr_data : OcrData) (owners : List Owner) (customers : List Customer)
    (properties : List Property) (min_confidence : ℚ := 70) : ReceiptMatchResult :=
  let candidates := receiptCandidates ocr_data owners properties
  if candidates = [] then
    { match_status := "manual_review", messages := [.noMatch] }
  else
    let best := receiptBest ocr_data owners customers properties
    match best.1 with
    | some bm =>
      if min_confidence ≤ best.2 then
        { owner_id := some bm.cand.owner.id
          property_id := bm.cand.property.bind (fun p => p.id)
          customer_id := bm.scores.customer_id
          confidence_score := best.2
          iban_match_score := bm.scores.iban
          amount_match_score := bm.scores.amount
          name_match_score := bm.scores.name
          address_match_score := bm.scores.address
          sender_match_score := bm.scores.sender
          match_status := "matched"
          messages := if 90 ≤ best.2 then [.matchedHigh best.2] else [.matchedStd best.2] }
      else
        { owner_id := some bm.cand.owner.id
          property_id := bm.cand.property.bind (fun p => p.id)
          customer_id := bm.scores.customer_id
          confidence_score := best.2
          iban_match_score := bm.scores.iban
          amount_match_score := bm.scores.amount
          name_match_score := bm.scores.name
          address_match_score := bm.scores.address
          sender_match_score := bm.scores.sender
          match_status := "manual_review"
          messages := [.lowConfidence best.2] }
    | none =>
      { match_status := "manual_review", messages := [.noMatch] }

/-! ## Lemma layer

Auxiliary lemmas about the embedded definitions, shared by the claim
theorems below. -/

/-- Character codes below the surrogate range are faithfully stored by
`Char.ofNat`. -/
theorem toNat_ofNat_small (n : Nat) (h : n < 55296) : (Char.ofNat n).toNat = n := by
  simp [Char.ofNat, Nat.isValidChar, h, Char.ofNatAux, Char.toNat]
  rfl

/-- Characters are determined by their code. -/
theorem char_eq_of_toNat (c d : Char) (h : c.toNat = d.toNat) : c = d := by
  apply Char.ext
  exact UInt32.ext h

theorem isLowerAZ_iff (c : Char) : isLowerAZ c = true ↔ 97 ≤ c.toNat ∧ c.toNat ≤ 122 := by
  simp only [isLowerAZ, Bool.and_eq_true, decide_eq_true_eq]
  constructor
  · rintro ⟨h1, h2⟩
    exact ⟨Char.le_def.mp h1, Char.le_def.mp h2⟩
  · rintro ⟨h1, h2⟩
    exact ⟨Char.le_def.mpr h1, Char.le_def.mpr h2⟩

/-- On a lowercase ASCII letter, `upperChar` lands in the uppercase range;
otherwise it is the identity. -/
theorem upperChar_cases (c : Char) :
    upperChar c = c ∨ 65 ≤ (upperChar c).toNat ∧ (upperChar c).toNat ≤ 90 := by
  unfold upperChar
  by_cases h : isLowerAZ c = true
  · right
    rw [if_pos h]
    obtain ⟨h1, h2⟩ := (isLowerAZ_iff c).mp h
    rw [toNat_ofNat_small _ (by omega)]
    omega
  · left
    rw [if_neg h]

theorem upperChar_not_lower (c : Char) : isLowerAZ (upperChar c) = false := by
  unfold upperChar
  by_cases h : isLowerAZ c = true
  · rw [if_pos h]
    obtain ⟨h1, h2⟩ := (isLowerAZ_iff c).mp h
    rw [Bool.eq_false_iff]
    intro hl
    obtain ⟨g1, g2⟩ := (isLowerAZ_iff _).mp hl
    rw [toNat_ofNat_small _ (by omega)] at g1
    omega
  · rw [if_neg h, Bool.eq_false_iff]
    exact fun hl => h hl

theorem upperChar_idem (c : Char) : upperChar (upperChar c) = upperChar c := by
  conv_lhs => rw [upperChar]
  rw [upperChar_not_lower]
  simp

/-- The image of `upperChar` avoids any character outside the uppercase
range that the argument avoided. -/
theorem upperChar_ne (c d : Char) (hd : d.toNat < 65 ∨ 90 < d.toNat) (h : c ≠ d) :
    upperChar c ≠ d := by
  rcases upperChar_cases c with hc | ⟨h1, h2⟩
  · rw [hc]; exact h
  · intro he
    rw [he] at h1 h2
    omega

/-! ### Single-character `replaceSub` lemmas -/

theorem replaceSubGo_single_map (a b : Char) :
    ∀ (fuel : Nat) (s : Str), s.length ≤ fuel →
      replaceSubGo [a] [b] fuel s = s.map (fun c => if c = a then b else c) := by
  intro fuel
  induction fuel with
  | zero =>
    intro s hs
    rw [List.length_eq_zero.mp (Nat.le_zero.mp hs)]
    rfl
  | succ n ih =>
    intro s hs
    cases s with
    | nil => rfl
    | cons c cs =>
      have ihcs := ih cs (by simpa using hs)
      by_cases hca : c = a
      · subst hca
        simp [replaceSubGo, List.isPrefixOf, ihcs]
      · have hac : ¬ a = c := fun h => hca h.symm
        simp [replaceSubGo, List.isPrefixOf, ihcs, hca, hac]

theorem replaceSub_single_map (a b : Char) (s : Str) :
    replaceSub [a] [b] s = s.map (fun c => if c = a then b else c) :=
  replaceSubGo_single_map a b s.length s le_rfl

theorem replaceSubGo_single_del (a : Char) :
    ∀ (fuel : Nat) (s : Str), s.length ≤ fuel →
      replaceSubGo [a] [] fuel s = s.filter (fun c => c != a) := by
  intro fuel
  induction fuel with
  | zero =>
    intro s hs
    rw [List.length_eq_zero.mp (Nat.le_zero.mp hs)]
    rfl
  | succ n ih =>
    intro s hs
    cases s with
    | nil => rfl
    | cons c cs =>
      have ihcs := ih cs (by simpa using hs)
      by_cases hca : c = a
      · subst hca
        simp [replaceSubGo, List.isPrefixOf, ihcs, List.filter_cons]
      · have hac : ¬ a = c := fun h => hca h.symm
        simp [replaceSubGo, List.isPrefixOf, ihcs, hca, hac, List.filter_cons]

theorem replaceSub_single_del (a : Char) (s : Str) :
    replaceSub [a] [] s = s.filter (fun c => c != a) :=
  replaceSubGo_single_del a s.length s le_rfl

/-- A replacement whose pattern starts with a character absent from the
string is the identity. -/
theorem replaceSubGo_no_op (p : Char) (ps rep : Str) :
    ∀ (fuel : Nat) (s : Str), p ∉ s → replaceSubGo (p :: ps) rep fuel s = s := by
  intro fuel
  induction fuel with
  | zero =>
    intro s _
    cases s <;> rfl
  | succ n ih =>
    intro s hp
    cases s with
    | nil => rfl
    | cons c cs =>
      have hcp : ¬ (p = c) := fun h => hp (by rw [h]; exact List.mem_cons_self c cs)
      simp [replaceSubGo, List.isPrefixOf, hcp,
        ih cs (fun h => hp (List.mem_cons_of_mem c h))]

theorem replaceSub_no_op (p : Char) (ps rep : Str) (s : Str) (hp : p ∉ s) :
    replaceSub (p :: ps) rep s = s :=
  replaceSubGo_no_op p ps rep s.length s hp

/-! ### Idempotence of `normalize_iban` (claim C9 groundwork) -/

theorem ibanFix_eq_map (x : Str) :
    replaceSub ['l'] ['1'] (replaceSub ['I'] ['1'] (replaceSub ['O'] ['0'] x))
      = x.map ibanFixChar := by
  rw [replaceSub_single_map, replaceSub_single_map, replaceSub_single_map,
    List.map_map, List.map_map]
  apply List.map_congr_left
  intro c _
  by_cases hO : c = 'O' <;> by_cases hI : c = 'I' <;> by_cases hl : c = 'l' <;>
    simp [ibanFixChar, hO, hI, hl, Function.comp]

theorem ibanFixChar_idem (c : Char) : ibanFixChar (ibanFixChar c) = ibanFixChar c := by
  by_cases hO : c = 'O' <;> by_cases hI : c = 'I' <;> by_cases hl : c = 'l' <;>
    simp [ibanFixChar, hO, hI, hl]

theorem ibanFixChar_ne (c d : Char) (hd : d ≠ '0' ∧ d ≠ '1') (h : c ≠ d) :
    ibanFixChar c ≠ d := by
  unfold ibanFixChar
  split
  · exact fun he => hd.1 he.symm
  · split
    · exact fun he => hd.2 he.symm
    · split
      · exact fun he => hd.2 he.symm
      · exact h

theorem ibanFixChar_upper (c : Char) (h : upperChar c = c) :
    upperChar (ibanFixChar c) = ibanFixChar c := by
  by_cases hO : c = 'O' <;> by_cases hI : c = 'I' <;> by_cases hl : c = 'l' <;>
    simp_all [ibanFixChar] <;> decide

/-- Characters of the cleaned, uppercased IBAN: no spaces, no hyphens, and
fixed by `upperChar`. -/
theorem mem_cleanedIban (s : Str) (c : Char) (hc : c ∈ cleanedIban s) :
    c ≠ ' ' ∧ c ≠ '-' ∧ upperChar c = c := by
  unfold cleanedIban at hc
  rw [replaceSub_single_del, replaceSub_single_del] at hc
  obtain ⟨d, hd, rfl⟩ := List.mem_map.mp hc
  have hd2 := List.of_mem_filter hd
  have hd3 := List.of_mem_filter (List.mem_of_mem_filter hd)
  have hds : d ≠ ' ' := by simpa using hd3
  have hdh : d ≠ '-' := by simpa using hd2
  refine ⟨upperChar_ne d ' ' (by left; decide) hds,
    upperChar_ne d '-' (by left; decide) hdh, upperChar_idem d⟩

/-- Unfolding of `normalize_iban` on a non-empty string in terms of
`cleanedIban` and `ibanFixChar`. -/
theorem normalize_iban_body (s : Str) (ne : s ≠ []) :
    normalize_iban (some s) =
      if 4 ≤ (cleanedIban s).length then
        (cleanedIban s).take 4 ++ ((cleanedIban s).drop 4).map ibanFixChar
      else cleanedIban s := by
  have hc : (replaceSub ['-'] [] (replaceSub [' '] [] s)).map upperChar = cleanedIban s := rfl
  simp only [normalize_iban, if_neg ne, hc, ibanFix_eq_map]
  by_cases h : 4 ≤ (cleanedIban s).length
  · rw [if_pos h, if_pos h]
    have h4 : (cleanedIban s).take 4 = (cleanedIban s).take 2 ++ ((cleanedIban s).drop 2).take 2 := by
      have := List.take_add (cleanedIban s) 2 2
      norm_num at this
      exact this
    rw [h4, List.append_assoc]
  · rw [if_neg h, if_neg h]

/-- The characters of a `normalize_iban` output are unchanged by the
cleaning pass. -/
theorem mem_normalize_iban (s : Str) (c : Char)
    (hc : c ∈ normalize_iban (some s)) :
    c ≠ ' ' ∧ c ≠ '-' ∧ upperChar c = c := by
  by_cases ne : s = []
  · subst ne
    simp [normalize_iban] at hc
  rw [normalize_iban_body s ne] at hc
  by_cases h : 4 ≤ (cleanedIban s).length
  · rw [if_pos h] at hc
    rcases List.mem_append.mp hc with h1 | h1
    · exact mem_cleanedIban s c (List.mem_of_mem_take h1)
    · obtain ⟨d, hd, rfl⟩ := List.mem_map.mp h1
      obtain ⟨hd1, hd2, hd3⟩ := mem_cleanedIban s d (List.mem_of_mem_drop hd)
      exact ⟨ibanFixChar_ne d ' ' (by constructor <;> decide) hd1,
        ibanFixChar_ne d '-' (by constructor <;> decide) hd2,
        ibanFixChar_upper d hd3⟩
  · rw [if_neg h] at hc
    exact mem_cleanedIban s c hc

/-- Cleaning is the identity on any `normalize_iban` output. -/
theorem cleanedIban_of_normalized (s : Str) :
    cleanedIban (normalize_iban (some s)) = normalize_iban (some s) := by
  unfold cleanedIban
  rw [replaceSub_single_del, replaceSub_single_del]
  have h1 : (normalize_iban (some s)).filter (fun c => c != ' ')
      = normalize_iban (some s) := by
    apply List.filter_eq_self.mpr
    intro c hc
    simpa using (mem_normalize_iban s c hc).1
  rw [h1]
  have h2 : (normalize_iban (some s)).filter (fun c => c != '-')
      = normalize_iban (some s) := by
    apply List.filter_eq_self.mpr
    intro c hc
    simpa using (mem_normalize_iban s c hc).2.1
  rw [h2]
  have h3 : (normalize_iban (some s)).map upperChar = normalize_iban (some s) := by
    have hmc := @List.map_congr_left Char (normalize_iban (some s)) Char upperChar id
      (fun c hc => (mem_normalize_iban s c hc).2.2)
    simpa using hmc
  exact h3

theorem normalize_iban_idem_aux (s : Str) :
    normalize_iban (some (normalize_iban (some s))) = normalize_iban (some s) := by
  by_cases hne : normalize_iban (some s) = []
  · rw [hne]
    rfl
  · rw [normalize_iban_body (normalize_iban (some s)) hne, cleanedIban_of_normalized]
    have hs : s ≠ [] := fun h => hne (by rw [h]; rfl)
    by_cases h4 : 4 ≤ (cleanedIban s).length
    · have hout : normalize_iban (some s)
          = (cleanedIban s).take 4 ++ ((cleanedIban s).drop 4).map ibanFixChar := by
        rw [normalize_iban_body s hs, if_pos h4]
      have hA : ((cleanedIban s).take 4).length = 4 := by
        rw [List.length_take]
        omega
      rw [if_pos (show 4 ≤ (normalize_iban (some s)).length by
        rw [hout]
        simp only [List.length_append, List.length_take, List.length_drop, List.length_map]
        omega)]
      rw [hout, List.take_left' hA, List.drop_left' hA, List.map_map]
      congr 1
      apply List.map_congr_left
      intro c _
      simp only [Function.comp_apply]
      exact ibanFixChar_idem c
    · have hout : normalize_iban (some s) = cleanedIban s := by
        rw [normalize_iban_body s hs, if_neg h4]
      rw [if_neg (by rw [hout]; exact h4)]

/-! ### Confidence aggregation (claim C1 groundwork) -/

/-- Closed form of `_calculate_total_confidence` on the score dictionary of
a candidate: the `"_customer_id"` entry has no weight, so the denominator
is always the full weight sum 385. -/
theorem totalConfidence_calc (sc : CalcScores) :
    _calculate_total_confidence (scoresEntries sc)
      = (sc.iban * 95 + sc.amount * 85 + sc.name * 75 + sc.address * 70 + sc.sender * 60)
        / 385 * 100 := by
  have hi : criteriaLookup "iban" = some ⟨1, 95, 95/100⟩ := rfl
  have ham : criteriaLookup "amount" = some ⟨2, 85, 80/100⟩ := rfl
  have hn : criteriaLookup "name" = some ⟨3, 75, 70/100⟩ := rfl
  have had : criteriaLookup "address" = some ⟨4, 70, 60/100⟩ := rfl
  have hse : criteriaLookup "sender" = some ⟨5, 60, 60/100⟩ := rfl
  have hcu : criteriaLookup "_customer_id" = none := rfl
  cases h : sc.customer_id with
  | none =>
    simp only [scoresEntries, h, List.append_nil, _calculate_total_confidence,
      List.foldl_cons, List.foldl_nil, hi, ham, hn, had, hse]
    norm_num
  | some cid =>
    simp only [scoresEntries, h, List.cons_append, List.nil_append,
      _calculate_total_confidence, List.foldl_cons, List.foldl_nil,
      hi, ham, hn, had, hse, hcu]
    norm_num

/-! ### Levenshtein distance bound (groundwork for the score bounds) -/

/-- Each entry of a Levenshtein row is at most one more than the
corresponding entry of the previous row (via the substitution branch). -/
theorem levInner_getD_le (c1 : Char) :
    ∀ (cs : Str) (prev : List Nat) (left j : Nat),
      (levInner c1 cs prev left).getD j 0 ≤ prev.getD j 0 + 1 := by
  intro cs
  induction cs with
  | nil =>
    intro prev left j
    simp [levInner]
  | cons c2 cs ih =>
    intro prev left j
    match prev with
    | [] => simp [levInner]
    | [p0] => simp [levInner]
    | p0 :: p1 :: ps =>
      simp only [levInner]
      match j with
      | 0 =>
        simp only [List.getD_cons_zero]
        have h1 : min (p1 + 1) (min (left + 1) (p0 + if c1 ≠ c2 then 1 else 0))
            ≤ p0 + if c1 ≠ c2 then 1 else 0 :=
          le_trans (min_le_right _ _) (min_le_right _ _)
        have h2 : (if c1 ≠ c2 then 1 else 0) ≤ 1 := by split <;> omega
        omega
      | j + 1 =>
        simp only [List.getD_cons_succ]
        exact ih (p1 :: ps) _ j

/-- Length of a Levenshtein row body. -/
theorem levInner_length (c1 : Char) :
    ∀ (cs : Str) (prev : List Nat) (left : Nat), cs.length + 1 ≤ prev.length →
      (levInner c1 cs prev left).length = cs.length := by
  intro cs
  induction cs with
  | nil =>
    intro prev left _
    cases prev with
    | nil => rfl
    | cons p0 ps => cases ps <;> rfl
  | cons c2 cs ih =>
    intro prev left hp
    match prev with
    | [] => simp at hp
    | [p0] => simp at hp
    | p0 :: p1 :: ps =>
      simp only [levInner, List.length_cons]
      rw [ih (p1 :: ps) _ (by simpa using hp)]

/-- Row invariant: if the previous row is bounded by `max i j` at each
position `j`, the next row is bounded by `max (i+1) j`. -/
theorem levRow_bound (c1 : Char) (s2 : Str) (prev : List Nat) (i : Nat)
    (h : ∀ j, prev.getD j 0 ≤ max i j) :
    ∀ j, ((i + 1) :: levInner c1 s2 prev (i + 1)).getD j 0 ≤ max (i + 1) j := by
  intro j
  match j with
  | 0 => simp
  | j + 1 =>
    simp only [List.getD_cons_succ]
    calc (levInner c1 s2 prev (i + 1)).getD j 0 ≤ prev.getD j 0 + 1 :=
          levInner_getD_le c1 s2 prev (i + 1) j
    _ ≤ max i j + 1 := by have := h j; omega
    _ ≤ max (i + 1) (j + 1) := by omega

theorem levOuter_bound (s2 : Str) :
    ∀ (s1 : Str) (i : Nat) (prev : List Nat), (∀ j, prev.getD j 0 ≤ max i j) →
      ∀ j, (levOuter s2 s1 i prev).getD j 0 ≤ max (i + s1.length) j := by
  intro s1
  induction s1 with
  | nil =>
    intro i prev h j
    simpa using h j
  | cons c1 rest ih =>
    intro i prev h j
    simp only [levOuter, List.length_cons]
    have := ih (i + 1) ((i + 1) :: levInner c1 s2 prev (i + 1)) (levRow_bound c1 s2 prev i h) j
    have harith : i + 1 + rest.length = i + (rest.length + 1) := by omega
    rw [harith] at this
    exact this

theorem levOuter_length (s2 : Str) :
    ∀ (s1 : Str) (i : Nat) (prev : List Nat), prev.length = s2.length + 1 →
      (levOuter s2 s1 i prev).length = s2.length + 1 := by
  intro s1
  induction s1 with
  | nil =>
    intro i prev h
    simpa using h
  | cons c1 rest ih =>
    intro i prev h
    simp only [levOuter]
    exact ih (i + 1) _ (by
      simp only [List.length_cons]
      rw [levInner_length c1 s2 prev (i + 1) (by omega)])

theorem levenshteinCore_le (s1 s2 : Str) :
    levenshteinCore s1 s2 ≤ max s1.length s2.length := by
  unfold levenshteinCore
  by_cases h : s2.length = 0
  · rw [if_pos h]
    exact le_max_left _ _
  · rw [if_neg h]
    have hlen : (levOuter s2 s1 0 (List.range (s2.length + 1))).length = s2.length + 1 :=
      levOuter_length s2 s1 0 _ (by simp)
    have hinit : ∀ j, (List.range (s2.length + 1)).getD j 0 ≤ max 0 j := by
      intro j
      rw [Nat.zero_max]
      by_cases hj : j < s2.length + 1
      · rw [List.getD_eq_getElem _ _ (by simpa using hj)]
        simp
      · rw [List.getD_eq_default _ _ (by simpa using not_lt.mp hj)]
        exact Nat.zero_le j
    have := levOuter_bound s2 s1 0 (List.range (s2.length + 1)) hinit
      ((levOuter s2 s1 0 (List.range (s2.length + 1))).length - 1)
    rw [hlen] at this
    simp only [Nat.zero_add] at this
    have h2 : s2.length + 1 - 1 = s2.length := by omega
    rw [h2] at this
    show (levOuter s2 s1 0 (List.range (s2.length + 1))).getD
        ((levOuter s2 s1 0 (List.range (s2.length + 1))).length - 1) 0
      ≤ max s1.length s2.length
    rw [hlen, h2]
    exact this

theorem levenshtein_distance_le_max (s1 s2 : Str) :
    levenshtein_distance s1 s2 ≤ max s1.length s2.length := by
  unfold levenshtein_distance
  by_cases h : s1.length < s2.length
  · rw [if_pos h]
    exact le_trans (levenshteinCore_le s2 s1) (by omega)
  · rw [if_neg h]
    exact levenshteinCore_le s1 s2

/-! ### Score bounds: every criterion score lies in `[0, 1]` -/

theorem levenshtein_similarity_bounds (s1 s2 : Str) :
    0 ≤ levenshtein_similarity s1 s2 ∧ levenshtein_similarity s1 s2 ≤ 1 := by
  unfold levenshtein_similarity
  dsimp only
  split
  · norm_num
  · split
    · norm_num
    · split
      · norm_num
      · rename_i hne hmax
        have h1 : (1 : Nat) ≤ max s1.length s2.length := by omega
        have hpos : (0 : ℚ) < (max s1.length s2.length : ℚ) := by
          exact_mod_cast Nat.lt_of_lt_of_le Nat.zero_lt_one h1
        have hle : (levenshtein_distance s1 s2 : ℚ) ≤ (max s1.length s2.length : ℚ) := by
          exact_mod_cast levenshtein_distance_le_max s1 s2
        have hdn : (0 : ℚ) ≤ (levenshtein_distance s1 s2 : ℚ) := by positivity
        have h2 : (levenshtein_distance s1 s2 : ℚ) / (max s1.length s2.length : ℚ) ≤ 1 :=
          (div_le_one hpos).mpr hle
        have h3 : (0 : ℚ) ≤ (levenshtein_distance s1 s2 : ℚ) / (max s1.length s2.length : ℚ) :=
          div_nonneg hdn hpos.le
        constructor <;> rw [Nat.cast_max] <;> linarith

theorem jaccard_similarity_bounds (s1 s2 : Str) (n : Nat) :
    0 ≤ jaccard_similarity s1 s2 n ∧ jaccard_similarity s1 s2 n ≤ 1 := by
  unfold jaccard_similarity
  dsimp only
  split
  · norm_num
  · split
    · norm_num
    · split
      · norm_num
      · rename_i h1 h2 huni
        set A := get_ngrams (s1.map lowerChar) n
        set B := get_ngrams (s2.map lowerChar) n
        have hsub : (A ∩ B).card ≤ (A ∪ B).card :=
          Finset.card_le_card Finset.inter_subset_union
        have hpos : (0 : ℚ) < ((A ∪ B).card : ℚ) := by
          have : (A ∪ B).card ≠ 0 := huni
          exact_mod_cast Nat.pos_of_ne_zero this
        constructor
        · positivity
        · exact (div_le_one hpos).mpr (by exact_mod_cast hsub)

theorem name_similarity_bounds (s1 s2 : Str) :
    0 ≤ name_similarity s1 s2 ∧ name_similarity s1 s2 ≤ 1 := by
  unfold name_similarity
  split
  · norm_num
  · obtain ⟨l1, l2⟩ := levenshtein_similarity_bounds s1 s2
    obtain ⟨j1, j2⟩ := jaccard_similarity_bounds s1 s2 2
    constructor <;> nlinarith

theorem address_similarity_bounds (s1 s2 : Str) :
    0 ≤ address_similarity s1 s2 ∧ address_similarity s1 s2 ≤ 1 := by
  unfold address_similarity
  dsimp only
  split
  · norm_num
  · split
    · exact levenshtein_similarity_bounds s1 s2
    · split
      · norm_num
      · split
        · norm_num
        · rename_i h1 h2 h3 huni
          set A := extract_address_keywords s1
          set B := extract_address_keywords s2
          have hsub : (A ∩ B).card ≤ (A ∪ B).card :=
            Finset.card_le_card Finset.inter_subset_union
          have hpos : (0 : ℚ) < ((A ∪ B).card : ℚ) := by
            have : (A ∪ B).card ≠ 0 := huni
            exact_mod_cast Nat.pos_of_ne_zero this
          constructor
          · positivity
          · exact (div_le_one hpos).mpr (by exact_mod_cast hsub)

theorem ibanCriterion_bounds (r o : Str) :
    0 ≤ ibanCriterion r o ∧ ibanCriterion r o ≤ 1 := by
  unfold ibanCriterion
  split
  · split
    · norm_num
    · split <;> norm_num
  · norm_num

theorem amountCriterion_bounds (amount : Option ℚ) (prop : Option Property) :
    0 ≤ amountCriterion amount prop ∧ amountCriterion amount prop ≤ 1 := by
  cases amount with
  | none =>
    have h : amountCriterion none prop = 0 := by cases prop <;> rfl
    rw [h]
    norm_num
  | some a =>
    cases prop with
    | none =>
      have h : amountCriterion (some a) none = 0 := rfl
      rw [h]
      norm_num
    | some p =>
      by_cases ha : a = 0
      · subst ha
        have h : amountCriterion (some 0) (some p) = 0 := by
          simp only [amountCriterion, ne_eq, not_true_eq_false, if_false]
        rw [h]
        norm_num
      · cases hp : p.price with
        | none =>
          have h : amountCriterion (some a) (some p) = 0 := by
            simp only [amountCriterion, ne_eq, ha, not_false_eq_true, if_true, hp]
          rw [h]
          norm_num
        | some pr =>
          by_cases hpr : pr = 0
          · subst hpr
            have h : amountCriterion (some a) (some p) = 0 := by
              simp only [amountCriterion, ne_eq, ha, not_false_eq_true, if_true, hp,
                not_true_eq_false, if_false]
            rw [h]
            norm_num
          · simp only [amountCriterion, hp, ne_eq, ha, not_false_eq_true, if_true,
              hpr, if_pos]
            have hd2 : |a - pr| ≤ pr * (5/100) ∨ ¬ (|a - pr| ≤ pr * (5/100)) :=
              em _
            rcases hd2 with hd1 | hd1
            · rw [if_pos hd1]
              have habs : (0 : ℚ) ≤ |a - pr| := abs_nonneg _
              have htol : (0 : ℚ) < pr * (5/100) := by
                rcases lt_or_gt_of_ne hpr with h | h
                · nlinarith
                · nlinarith
              have h1 : |a - pr| / (pr * (5/100)) ≤ 1 := (div_le_one htol).mpr hd1
              have h0 : 0 ≤ |a - pr| / (pr * (5/100)) := div_nonneg habs htol.le
              constructor <;> nlinarith
            · rw [if_neg hd1]
              split <;> norm_num

theorem nameCriterion_bounds (r o : Str) :
    0 ≤ nameCriterion r o ∧ nameCriterion r o ≤ 1 := by
  unfold nameCriterion
  split
  · exact name_similarity_bounds r o
  · norm_num

theorem addressCriterion_bounds (d : Str) (prop : Option Property) :
    0 ≤ addressCriterion d prop ∧ addressCriterion d prop ≤ 1 := by
  cases prop with
  | none =>
    have h : addressCriterion d none = 0 := rfl
    rw [h]
    norm_num
  | some p =>
    by_cases hd : d = []
    · have h : addressCriterion d (some p) = 0 := by
        simp only [addressCriterion, ne_eq, hd, not_true_eq_false, if_false]
      rw [h]
      norm_num
    · by_cases hpa : p.address.getD [] = []
      · have h : addressCriterion d (some p) = 0 := by
          simp only [addressCriterion, ne_eq, hd, not_false_eq_true, if_true, hpa,
            not_true_eq_false, if_false]
        rw [h]
        norm_num
      · have h : addressCriterion d (some p) = address_similarity d (p.address.getD []) := by
          simp only [addressCriterion, ne_eq, hd, not_false_eq_true, if_true, hpa]
        rw [h]
        exact address_similarity_bounds _ _

theorem senderStep_skip (s : Str) (acc : ℚ × Option Int) (c : Customer)
    (hn : ¬ normalize_name c.full_name ≠ []) : senderStep s acc c = acc := by
  simp only [senderStep]
  rw [if_neg hn]

theorem senderStep_update (s : Str) (acc : ℚ × Option Int) (c : Customer)
    (hn : normalize_name c.full_name ≠ [])
    (hl : acc.1 < name_similarity s (normalize_name c.full_name)) :
    senderStep s acc c = (name_similarity s (normalize_name c.full_name), c.id) := by
  simp only [senderStep]
  rw [if_pos hn]
  rw [if_pos hl]

theorem senderStep_keep (s : Str) (acc : ℚ × Option Int) (c : Customer)
    (hn : normalize_name c.full_name ≠ [])
    (hl : ¬ acc.1 < name_similarity s (normalize_name c.full_name)) :
    senderStep s acc c = acc := by
  simp only [senderStep]
  rw [if_pos hn]
  rw [if_neg hl]

theorem senderFold_go_bounds (sender : Str) :
    ∀ (cs : List Customer) (acc : ℚ × Option Int), 0 ≤ acc.1 → acc.1 ≤ 1 →
      0 ≤ (cs.foldl (senderStep sender) acc).1
      ∧ (cs.foldl (senderStep sender) acc).1 ≤ 1 := by
  intro cs
  induction cs with
  | nil => intro acc h0 h1; exact ⟨h0, h1⟩
  | cons c cs ih =>
    intro acc h0 h1
    simp only [List.foldl_cons]
    by_cases hn : normalize_name c.full_name ≠ []
    · by_cases hl : acc.1 < name_similarity sender (normalize_name c.full_name)
      · rw [senderStep_update sender acc c hn hl]
        obtain ⟨n0, n1⟩ := name_similarity_bounds sender (normalize_name c.full_name)
        exact ih _ n0 n1
      · rw [senderStep_keep sender acc c hn hl]
        exact ih acc h0 h1
    · rw [senderStep_skip sender acc c hn]
      exact ih acc h0 h1

theorem senderFold_bounds (sender : Str) (cs : List Customer) :
    0 ≤ (senderFold sender cs).1 ∧ (senderFold sender cs).1 ≤ 1 := by
  unfold senderFold
  split
  · norm_num
  · exact senderFold_go_bounds sender cs (0, none) le_rfl (by norm_num)

/-- The five criterion scores of any candidate lie in `[0, 1]`. -/
theorem calc_scores_bounds (receiver_iban receiver_name sender_name : Str)
    (amount : Option ℚ) (description : Str) (owner : Owner)
    (property_obj : Option Property) (customers : List Customer) :
    let sc := _calculate_match_scores receiver_iban receiver_name sender_name amount
      description owner property_obj customers
    (0 ≤ sc.iban ∧ sc.iban ≤ 1) ∧ (0 ≤ sc.amount ∧ sc.amount ≤ 1)
      ∧ (0 ≤ sc.name ∧ sc.name ≤ 1) ∧ (0 ≤ sc.address ∧ sc.address ≤ 1)
      ∧ (0 ≤ sc.sender ∧ sc.sender ≤ 1) := by
  refine ⟨ibanCriterion_bounds _ _, amountCriterion_bounds _ _,
    nameCriterion_bounds _ _, addressCriterion_bounds _ _, senderFold_bounds _ _⟩

/-- The aggregate confidence of any candidate lies in `[0, 100]`. -/
theorem totalConfidence_bounds (sc : CalcScores)
    (h : (0 ≤ sc.iban ∧ sc.iban ≤ 1) ∧ (0 ≤ sc.amount ∧ sc.amount ≤ 1)
      ∧ (0 ≤ sc.name ∧ sc.name ≤ 1) ∧ (0 ≤ sc.address ∧ sc.address ≤ 1)
      ∧ (0 ≤ sc.sender ∧ sc.sender ≤ 1)) :
    0 ≤ _calculate_total_confidence (scoresEntries sc)
      ∧ _calculate_total_confidence (scoresEntries sc) ≤ 100 := by
  rw [totalConfidence_calc]
  obtain ⟨⟨a0, a1⟩, ⟨b0, b1⟩, ⟨c0, c1⟩, ⟨d0, d1⟩, ⟨e0, e1⟩⟩ := h
  constructor
  · have : (0 : ℚ) ≤ sc.iban * 95 + sc.amount * 85 + sc.name * 75 + sc.address * 70
        + sc.sender * 60 := by linarith
    positivity
  · rw [div_mul_eq_mul_div, div_le_iff (by norm_num : (0:ℚ) < 385)]
    linarith

/-! ### Best-candidate selection lemmas -/

theorem pickBest_eq_foldl (l : List ScoredCandidate) :
    pickBest l = l.foldl pickStep (none, 0) := rfl

theorem pickStep_foldl_spec :
    ∀ (l : List ScoredCandidate) (acc : Option ScoredCandidate × ℚ),
      l.foldl pickStep acc = acc
      ∨ ∃ b ∈ l, (l.foldl pickStep acc).1 = some b
          ∧ (l.foldl pickStep acc).2 = b.total_score := by
  intro l
  induction l with
  | nil => intro acc; left; rfl
  | cons c cs ih =>
    intro acc
    simp only [List.foldl_cons]
    by_cases h : acc.2 < c.total_score
    · rcases ih (pickStep acc c) with h1 | ⟨b, hb, h2, h3⟩
      · right
        refine ⟨c, List.mem_cons_self c cs, ?_, ?_⟩
        · rw [h1]
          simp [pickStep, h]
        · rw [h1]
          simp [pickStep, h]
      · right
        exact ⟨b, List.mem_cons_of_mem c hb, h2, h3⟩
    · rcases ih (pickStep acc c) with h1 | ⟨b, hb, h2, h3⟩
      · left
        rw [h1]
        simp [pickStep, h]
      · right
        exact ⟨b, List.mem_cons_of_mem c hb, h2, h3⟩

/-- If the fold starts from a present best, the best stays present. -/
theorem pickStep_foldl_isSome :
    ∀ (l : List ScoredCandidate) (acc : Option ScoredCandidate × ℚ),
      acc.1.isSome → (l.foldl pickStep acc).1.isSome := by
  intro l
  induction l with
  | nil => intro acc h; exact h
  | cons c cs ih =>
    intro acc h
    simp only [List.foldl_cons]
    apply ih
    unfold pickStep
    split
    · rfl
    · exact h

/-- The best score never decreases along the fold. -/
theorem pickStep_foldl_mono :
    ∀ (l : List ScoredCandidate) (acc : Option ScoredCandidate × ℚ),
      acc.2 ≤ (l.foldl pickStep acc).2 := by
  intro l
  induction l with
  | nil => intro acc; exact le_rfl
  | cons c cs ih =>
    intro acc
    simp only [List.foldl_cons]
    refine le_trans ?_ (ih (pickStep acc c))
    unfold pickStep
    split
    · rename_i h
      exact h.le
    · exact le_rfl

theorem pickStep_foldl_le (hi : ℚ) :
    ∀ (l : List ScoredCandidate) (acc : Option ScoredCandidate × ℚ),
      (∀ b ∈ l, b.total_score ≤ hi) → acc.2 ≤ hi → (l.foldl pickStep acc).2 ≤ hi := by
  intro l
  induction l with
  | nil => intro acc _ h; exact h
  | cons c cs ih =>
    intro acc hl h
    simp only [List.foldl_cons]
    apply ih
    · intro b hb
      exact hl b (List.mem_cons_of_mem c hb)
    · unfold pickStep
      split
      · exact hl c (List.mem_cons_self c cs)
      · exact h

/-- With a non-empty list of strictly positive totals, `pickBest` returns a
candidate. -/
theorem pickBest_isSome (l : List ScoredCandidate) (hne : l ≠ [])
    (hpos : ∀ b ∈ l, 0 < b.total_score) : (pickBest l).1.isSome := by
  match l with
  | [] => exact absurd rfl hne
  | c :: cs =>
    rw [pickBest_eq_foldl]
    simp only [List.foldl_cons]
    apply pickStep_foldl_isSome
    unfold pickStep
    rw [if_pos (hpos c (List.mem_cons_self c cs))]
    rfl

theorem pickBest_nonneg (l : List ScoredCandidate) : 0 ≤ (pickBest l).2 :=
  pickStep_foldl_mono l (none, 0)

theorem pickBest_le (l : List ScoredCandidate) (hl : ∀ b ∈ l, b.total_score ≤ 100) :
    (pickBest l).2 ≤ 100 :=
  pickStep_foldl_le 100 l (none, 0) hl (by norm_num)

/-- A returned best candidate belongs to the list and carries the best
score. -/
theorem pickBest_some (l : List ScoredCandidate) (b : ScoredCandidate)
    (h : (pickBest l).1 = some b) :
    b ∈ l ∧ (pickBest l).2 = b.total_score := by
  rcases pickStep_foldl_spec l (none, 0) with h1 | ⟨b2, hb2, h2, h3⟩
  · rw [pickBest_eq_foldl] at h
    rw [h1] at h
    simp at h
  · rw [pickBest_eq_foldl] at h
    rw [h2] at h
    obtain rfl : b2 = b := by simpa using h
    rw [pickBest_eq_foldl]
    exact ⟨hb2, h3⟩

/-! ### Candidate membership analysis -/

/-- Every generated candidate owes its existence either to an exact IBAN
match or to a name similarity of at least 0.7 with its owner. -/
theorem mem_find_candidates (rib rname : Str) (owners : List Owner)
    (props : List Property) (c : Candidate)
    (hc : c ∈ _find_candidates rib rname owners props) :
    c.owner ∈ owners ∧
      ((rib ≠ [] ∧ normalize_iban c.owner.iban ≠ [] ∧ rib = normalize_iban c.owner.iban)
        ∨ (rname ≠ [] ∧ normalize_name c.owner.full_name ≠ []
            ∧ 7/10 ≤ name_similarity rname (normalize_name c.owner.full_name))) := by
  unfold _find_candidates at hc
  obtain ⟨o, ho, hco⟩ := List.mem_flatMap.mp hc
  unfold ownerCandidates at hco
  by_cases h1 : rib ≠ [] ∧ normalize_iban o.iban ≠ [] ∧ rib = normalize_iban o.iban
  · rw [if_pos h1] at hco
    dsimp only at hco
    have howner : c.owner = o := by
      split at hco
      · obtain ⟨p, hp, rfl⟩ := List.mem_map.mp hco
        rfl
      · simp only [List.mem_singleton] at hco
        rw [hco]
    rw [howner]
    exact ⟨ho, Or.inl h1⟩
  · rw [if_neg h1] at hco
    split at hco
    · rename_i h2
      dsimp only at hco
      split at hco
      · rename_i h3
        obtain ⟨p, hp, rfl⟩ := List.mem_map.mp hco
        exact ⟨ho, Or.inr ⟨h2.1, h2.2, h3⟩⟩
      · simp at hco
    · simp at hco

/-- Every generated candidate scores a strictly positive total confidence:
an exact IBAN match contributes the full IBAN criterion, a name match at
least 0.7 of the name criterion. -/
theorem find_candidates_total_pos (rib rname sname : Str) (amount : Option ℚ)
    (desc : Str) (owners : List Owner) (props : List Property)
    (customers : List Customer) (c : Candidate)
    (hc : c ∈ _find_candidates rib rname owners props) :
    0 < _calculate_total_confidence (scoresEntries
      (_calculate_match_scores rib rname sname amount desc c.owner c.property customers)) := by
  obtain ⟨-, hcase⟩ := mem_find_candidates rib rname owners props c hc
  have hb := calc_scores_bounds rib rname sname amount desc c.owner c.property customers
  dsimp only at hb
  obtain ⟨⟨i0, i1⟩, ⟨a0, a1⟩, ⟨n0, n1⟩, ⟨d0, d1⟩, ⟨e0, e1⟩⟩ := hb
  rw [totalConfidence_calc]
  set sc := _calculate_match_scores rib rname sname amount desc c.owner c.property customers
    with hsc
  have hsum : (0 : ℚ) < sc.iban * 95 + sc.amount * 85 + sc.name * 75 + sc.address * 70
      + sc.sender * 60 := by
    rcases hcase with ⟨h1, h2, h3⟩ | ⟨h1, h2, h3⟩
    · have hiban : sc.iban = 1 := by
        have he : sc.iban = ibanCriterion rib (normalize_iban c.owner.iban) := rfl
        rw [he, ibanCriterion, if_pos ⟨h1, h2⟩, if_pos h3]
      rw [hiban]
      linarith
    · have hname : 7/10 ≤ sc.name := by
        have he : sc.name = nameCriterion rname (normalize_name c.owner.full_name) := rfl
        rw [he, nameCriterion, if_pos ⟨h1, h2⟩]
        exact h3
      linarith
  have h385 : (0 : ℚ) < 385 := by norm_num
  have h100 : (0 : ℚ) < 100 := by norm_num
  exact mul_pos (div_pos hsum h385) h100

/-- Scored candidates are candidates annotated with their computed scores
and total. -/
theorem mem_receiptScored (ocr_data : OcrData) (owners : List Owner)
    (customers : List Customer) (properties : List Property) (b : ScoredCandidate)
    (hb : b ∈ receiptScored ocr_data owners customers properties) :
    ∃ c ∈ receiptCandidates ocr_data owners properties,
      b.cand = c
      ∧ b.scores = _calculate_match_scores (receiptInputs ocr_data).1
          (receiptInputs ocr_data).2.1 (receiptInputs ocr_data).2.2.1
          (receiptInputs ocr_data).2.2.2.1 (receiptInputs ocr_data).2.2.2.2
          c.owner c.property customers
      ∧ b.total_score = _calculate_total_confidence (scoresEntries b.scores) := by
  unfold receiptScored scoreCandidates at hb
  obtain ⟨c, hc, rfl⟩ := List.mem_map.mp hb
  exact ⟨c, hc, rfl, rfl, rfl⟩

/-! ### Candidate generation vs. its specification (claim C3 groundwork) -/

theorem name_similarity_nil_right (s : Str) : name_similarity s [] = 0 := by
  simp [name_similarity]

/-- Per-owner equivalence between the code's candidate generation and the
amended specification. -/
theorem ownerCandidates_eq_spec (rib rname : Str) (props : List Property) (o : Owner) :
    ownerCandidates rib rname props o = ownerCandidatesSpec rib rname props o := by
  unfold ownerCandidates ownerCandidatesSpec
  by_cases h1 : rib ≠ [] ∧ normalize_iban o.iban ≠ [] ∧ rib = normalize_iban o.iban
  · rw [if_pos h1,
      if_pos (show rib ≠ [] ∧ rib = normalize_iban o.iban from ⟨h1.1, h1.2.2⟩)]
  · by_cases h1s : rib ≠ [] ∧ rib = normalize_iban o.iban
    · exact absurd ⟨h1s.1, by rw [← h1s.2]; exact h1s.1, h1s.2⟩ h1
    · rw [if_neg h1, if_neg h1s]
      by_cases hB : rname ≠ []
          ∧ 7/10 ≤ name_similarity rname (normalize_name o.full_name)
      · have honame : normalize_name o.full_name ≠ [] := by
          intro he
          have hx := hB.2
          rw [he, name_similarity_nil_right] at hx
          norm_num at hx
        rw [if_pos (show rname ≠ [] ∧ normalize_name o.full_name ≠ [] from ⟨hB.1, honame⟩)]
        dsimp only
        rw [if_pos hB.2, if_pos hB]
      · rw [if_neg hB]
        by_cases h2 : rname ≠ [] ∧ normalize_name o.full_name ≠ []
        · rw [if_pos h2]
          dsimp only
          rw [if_neg (fun h3 => hB ⟨h2.1, h3⟩)]
        · rw [if_neg h2]

/-! ### Sender resolution analysis (claim C6 groundwork) -/

theorem name_similarity_nil_left (s : Str) : name_similarity [] s = 0 := by
  simp [name_similarity]

theorem senderFold_go_mono (s : Str) :
    ∀ (cs : List Customer) (acc : ℚ × Option Int),
      acc.1 ≤ (cs.foldl (senderStep s) acc).1 := by
  intro cs
  induction cs with
  | nil => intro acc; exact le_rfl
  | cons c cs ih =>
    intro acc
    simp only [List.foldl_cons]
    by_cases hn : normalize_name c.full_name ≠ []
    · by_cases hl : acc.1 < name_similarity s (normalize_name c.full_name)
      · rw [senderStep_update s acc c hn hl]
        exact le_trans hl.le (ih _)
      · rw [senderStep_keep s acc c hn hl]
        exact ih acc
    · rw [senderStep_skip s acc c hn]
      exact ih acc

/-- If the running maximum never strictly improved, the recorded id is the
initial one. -/
theorem senderFold_go_stable (s : Str) :
    ∀ (cs : List Customer) (acc : ℚ × Option Int),
      (cs.foldl (senderStep s) acc).1 = acc.1 → (cs.foldl (senderStep s) acc).2 = acc.2 := by
  intro cs
  induction cs with
  | nil => intro acc _; rfl
  | cons c cs ih =>
    intro acc heq
    simp only [List.foldl_cons] at heq ⊢
    by_cases hn : normalize_name c.full_name ≠ []
    · by_cases hl : acc.1 < name_similarity s (normalize_name c.full_name)
      · exfalso
        rw [senderStep_update s acc c hn hl] at heq
        have := senderFold_go_mono s cs (name_similarity s (normalize_name c.full_name), c.id)
        simp only at this
        rw [heq] at this
        exact absurd (lt_of_lt_of_le hl this) (lt_irrefl _)
      · rw [senderStep_keep s acc c hn hl] at heq ⊢
        exact ih acc heq
    · rw [senderStep_skip s acc c hn] at heq ⊢
      exact ih acc heq

/-- The running maximum of the sender loop equals the fold of `max` over
all contributions (skipped empty-name customers contribute 0). -/
theorem senderFold_go_max (s : Str) :
    ∀ (cs : List Customer) (acc : ℚ × Option Int), 0 ≤ acc.1 →
      (cs.foldl (senderStep s) acc).1
        = cs.foldl (fun a c => max a (senderContribution s c)) acc.1 := by
  intro cs
  induction cs with
  | nil => intro acc _; rfl
  | cons c cs ih =>
    intro acc h0
    simp only [List.foldl_cons]
    by_cases hn : normalize_name c.full_name ≠ []
    · by_cases hl : acc.1 < name_similarity s (normalize_name c.full_name)
      · rw [senderStep_update s acc c hn hl]
        have hmax : max acc.1 (senderContribution s c)
            = name_similarity s (normalize_name c.full_name) := by
          unfold senderContribution
          exact max_eq_right hl.le
        rw [hmax]
        exact ih _ (le_trans h0 hl.le)
      · rw [senderStep_keep s acc c hn hl]
        have hmax : max acc.1 (senderContribution s c) = acc.1 := by
          unfold senderContribution
          exact max_eq_left (not_lt.mp hl)
        rw [hmax]
        exact ih acc h0
    · rw [senderStep_skip s acc c hn]
      have hempty : normalize_name c.full_name = [] := not_not.mp (by simpa using hn)
      have hmax : max acc.1 (senderContribution s c) = acc.1 := by
        unfold senderContribution
        rw [hempty, name_similarity_nil_right]
        exact max_eq_left h0
      rw [hmax]
      exact ih acc h0

/-- When the maximum strictly improved over the initial value, the
recorded id is that of the first customer achieving the final maximum. -/
theorem senderFold_go_argmax (s : Str) :
    ∀ (cs : List Customer) (acc : ℚ × Option Int), 0 ≤ acc.1 →
      acc.1 < (cs.foldl (senderStep s) acc).1 →
      (cs.foldl (senderStep s) acc).2
        = (cs.find? (fun c =>
            senderContribution s c == (cs.foldl (senderStep s) acc).1)).bind Customer.id := by
  intro cs
  induction cs with
  | nil =>
    intro acc _ hlt
    exact absurd hlt (lt_irrefl _)
  | cons c cs ih =>
    intro acc h0 hlt
    simp only [List.foldl_cons] at hlt ⊢
    by_cases hn : normalize_name c.full_name ≠ []
    · by_cases hl : acc.1 < name_similarity s (normalize_name c.full_name)
      · rw [senderStep_update s acc c hn hl] at hlt ⊢
        set sim := name_similarity s (normalize_name c.full_name) with hsim
        have hmono := senderFold_go_mono s cs (sim, c.id)
        simp only at hmono
        rcases lt_or_eq_of_le hmono with hcase | hcase
        · have hne : ¬ (senderContribution s c
              == (cs.foldl (senderStep s) (sim, c.id)).1) = true := by
            simp only [beq_iff_eq, senderContribution, ← hsim]
            exact ne_of_lt hcase
          rw [@List.find?_cons_of_neg Customer
            (fun c2 => senderContribution s c2
              == (cs.foldl (senderStep s) (sim, c.id)).1) c cs hne]
          exact ih (sim, c.id) (le_trans h0 hl.le) hcase
        · have heq : (cs.foldl (senderStep s) (sim, c.id)).1 = sim := hcase.symm
          have hpe : (senderContribution s c
              == (cs.foldl (senderStep s) (sim, c.id)).1) = true := by
            simp only [beq_iff_eq, senderContribution, ← hsim]
            exact heq.symm
          rw [@List.find?_cons_of_pos Customer
            (fun c2 => senderContribution s c2
              == (cs.foldl (senderStep s) (sim, c.id)).1) c cs hpe]
          have hst := senderFold_go_stable s cs (sim, c.id) heq
          rw [hst]
          rfl
      · rw [senderStep_keep s acc c hn hl] at hlt ⊢
        have hne : ¬ (senderContribution s c
            == (cs.foldl (senderStep s) acc).1) = true := by
          simp only [beq_iff_eq, senderContribution]
          exact ne_of_lt (lt_of_le_of_lt (not_lt.mp hl) hlt)
        rw [@List.find?_cons_of_neg Customer
          (fun c2 => senderContribution s c2
            == (cs.foldl (senderStep s) acc).1) c cs hne]
        exact ih acc h0 hlt
    · rw [senderStep_skip s acc c hn] at hlt ⊢
      have hempty : normalize_name c.full_name = [] := not_not.mp (by simpa using hn)
      have hne : ¬ (senderContribution s c
          == (cs.foldl (senderStep s) acc).1) = true := by
        simp only [beq_iff_eq, senderContribution, hempty, name_similarity_nil_right]
        exact ne_of_lt (lt_of_le_of_lt h0 hlt)
      rw [@List.find?_cons_of_neg Customer
        (fun c2 => senderContribution s c2
          == (cs.foldl (senderStep s) acc).1) c cs hne]
      exact ih acc h0 hlt

theorem senderFold_eq_max (s : Str) (cs : List Customer) (hs : s ≠ []) :
    (senderFold s cs).1 = senderMax s cs := by
  unfold senderFold senderMax
  rw [if_neg hs]
  exact senderFold_go_max s cs (0, none) le_rfl

theorem senderFold_argmax (s : Str) (cs : List Customer)
    (hpos : 0 < (senderFold s cs).1) :
    (senderFold s cs).2
      = (cs.find? (fun c => senderContribution s c == (senderFold s cs).1)).bind
          Customer.id := by
  unfold senderFold at hpos ⊢
  by_cases hs : s = []
  · rw [if_pos hs] at hpos
    norm_num at hpos
  · rw [if_neg hs] at hpos ⊢
    exact senderFold_go_argmax s cs (0, none) le_rfl hpos

/-! ### No-op lemmas for the `normalize_amount` pipeline (claim C8) -/

theorem dropWhile_no_op (p : Char → Bool) (s : Str) (h : ∀ c ∈ s, p c = false) :
    s.dropWhile p = s := by
  cases s with
  | nil => rfl
  | cons c cs =>
    rw [List.dropWhile_cons, if_neg]
    rw [h c (List.mem_cons_self c cs)]
    simp

theorem pyStrip_no_op (s : Str) (h : ∀ c ∈ s, pyIsSpace c = false) : pyStrip s = s := by
  unfold pyStrip
  rw [dropWhile_no_op pyIsSpace s h,
    dropWhile_no_op pyIsSpace s.reverse (fun c hc => h c (List.mem_reverse.mp hc)),
    List.reverse_reverse]

theorem currencyStrip_no_op (s : Str) (hT : 'T' ∉ s) (hl : '₺' ∉ s)
    (hsp : ∀ c ∈ s, pyIsSpace c = false) : currencyStrip s = s := by
  unfold currencyStrip
  rw [replaceSub_no_op 'T' ['L'] [] s hT, replaceSub_no_op 'T' ['R', 'Y'] [] s hT,
    replaceSub_no_op '₺' [] [] s hl, pyStrip_no_op s hsp]

theorem ocrOzero_no_op (s : Str) (hO : 'O' ∉ s) (ho : 'o' ∉ s) : ocrOzero s = s := by
  unfold ocrOzero
  rw [replaceSub_no_op 'O' [] ['0'] s hO, replaceSub_no_op 'o' [] ['0'] s ho]

set_option maxRecDepth 8000

-- The Batteries rational arithmetic is irreducible by default, which blocks
-- kernel evaluation of the model on concrete inputs; make it semireducible.
unseal Rat.mul Rat.inv Rat.add Rat.sub Rat.ofScientific

/-! ## Claim theorems -/

/-- C9: `normalize_iban` is idempotent — applying it to its own output
returns that output unchanged, for every input string — and empty or
absent input yields the empty string. -/
theorem C9_normalize_iban_idempotent :
    (∀ s : Option Str, normalize_iban (some (normalize_iban s)) = normalize_iban s) ∧
    normalize_iban none = [] ∧ normalize_iban (some []) = [] := by
  refine ⟨?_, rfl, rfl⟩
  intro s
  cases s with
  | none => rfl
  | some s => exact normalize_iban_idem_aux s

/-- C1: for every scored candidate, the aggregate confidence equals
100 × (95·iban + 85·amount + 75·name + 70·address + 60·sender) / 385, where
the five criterion scores are exactly the fields computed by
`_calculate_match_scores` (each defaulting to 0 when its criterion could
not be computed); the denominator is always the full weight sum 385, and
the auxiliary `"_customer_id"` entry of the score dictionary contributes
nothing. -/
theorem C1_confidence_weighted_formula
    (receiver_iban receiver_name sender_name : Str) (amount : Option ℚ)
    (description : Str) (owner : Owner) (property_obj : Option Property)
    (customers : List Customer) :
    _calculate_total_confidence (scoresEntries
      (_calculate_match_scores receiver_iban receiver_name sender_name amount
        description owner property_obj customers))
      = 100 * (95 * (_calculate_match_scores receiver_iban receiver_name sender_name amount
            description owner property_obj customers).iban
          + 85 * (_calculate_match_scores receiver_iban receiver_name sender_name amount
            description owner property_obj customers).amount
          + 75 * (_calculate_match_scores receiver_iban receiver_name sender_name amount
            description owner property_obj customers).name
          + 70 * (_calculate_match_scores receiver_iban receiver_name sender_name amount
            description owner property_obj customers).address
          + 60 * (_calculate_match_scores receiver_iban receiver_name sender_name amount
            description owner property_obj customers).sender) / 385 := by
  rw [totalConfidence_calc]
  ring

/-- C5: for a candidate with a property of price `p > 0` and a parsed
amount `a`, with `diff = |a − p|` and `tol = 0.05·p`, the amount score is
`1 − (diff/tol)·0.2` when `diff ≤ tol`, `0.5` when `tol < diff ≤ 2·tol`,
and `0` when `diff > 2·tol`; with no property or an unparsed amount the
score is `0`. -/
theorem C5_amount_score (a p : ℚ) (prop : Property) (hp : prop.price = some p)
    (hpos : 0 < p) :
    (amountCriterion (some a) (some prop)
        = if |a - p| ≤ p * (5/100) then 1 - |a - p| / (p * (5/100)) * (2/10)
          else if |a - p| ≤ p * (5/100) * 2 then 1/2
          else 0)
    ∧ amountCriterion none (some prop) = 0
    ∧ amountCriterion (some a) none = 0 := by
  refine ⟨?_, rfl, rfl⟩
  by_cases ha : a = 0
  · subst ha
    have h1 : ¬ (|0 - p| ≤ p * (5/100)) := by
      rw [zero_sub, abs_neg, abs_of_pos hpos]
      intro h
      linarith
    have h2 : ¬ (|0 - p| ≤ p * (5/100) * 2) := by
      rw [zero_sub, abs_neg, abs_of_pos hpos]
      intro h
      linarith
    simp only [amountCriterion, ne_eq, not_true_eq_false, if_false,
      if_neg h1, if_neg h2]
  · simp only [amountCriterion, hp, ne_eq, ha, not_false_eq_true, if_true,
      hpos.ne', if_pos]

/-- C10: the division `diff / tolerance` of the amount criterion is
evaluated only under guards that force both the parsed amount and the
property price to be present and nonzero, so its divisor `p · 0.05` is
nonzero there; consequently an absent or zero amount, an absent property,
or an absent or zero price each yield amount score `0`. -/
theorem C10_amount_division_guard (a : ℚ) (prop : Property) :
    amountCriterion none (some prop) = 0
    ∧ amountCriterion (some 0) (some prop) = 0
    ∧ amountCriterion (some a) none = 0
    ∧ (prop.price = none → amountCriterion (some a) (some prop) = 0)
    ∧ (prop.price = some 0 → amountCriterion (some a) (some prop) = 0)
    ∧ (∀ p : ℚ, prop.price = some p → a ≠ 0 → p ≠ 0 →
        (amountCriterion (some a) (some prop)
            = if |a - p| ≤ p * (5/100) then 1 - |a - p| / (p * (5/100)) * (2/10)
              else if |a - p| ≤ p * (5/100) * 2 then 1/2
              else 0)
          ∧ p * (5/100) ≠ 0) := by
  refine ⟨rfl, ?_, rfl, ?_, ?_, ?_⟩
  · simp [amountCriterion]
  · intro h
    simp [amountCriterion, h]
  · intro h
    simp [amountCriterion, h]
  · intro p hp ha hne
    refine ⟨?_, by positivity⟩
    simp only [amountCriterion, hp, ne_eq, ha, not_false_eq_true, if_true,
      hne, if_pos]

/-- Witness for C5 at the boundary inputs of the spec: price 100, amounts
100 (diff 0), 105 (diff = tol), 110 (diff = 2·tol), 111 (diff > 2·tol). -/
theorem C5_amount_score_witness :
    amountCriterion (some 100) (some { price := some 100 }) = 1
    ∧ amountCriterion (some 105) (some { price := some 100 }) = 8/10
    ∧ amountCriterion (some 110) (some { price := some 100 }) = 1/2
    ∧ amountCriterion (some 111) (some { price := some 100 }) = 0 := by
  refine ⟨?_, ?_, ?_, ?_⟩
  · rw [(C5_amount_score 100 100 { price := some 100 } rfl (by decide)).1]
    decide
  · rw [(C5_amount_score 105 100 { price := some 100 } rfl (by decide)).1]
    decide
  · rw [(C5_amount_score 110 100 { price := some 100 } rfl (by decide)).1]
    decide
  · rw [(C5_amount_score 111 100 { price := some 100 } rfl (by decide)).1]
    decide

/-- Witness for C10: a zero amount and a zero price each give score 0, and
the divisor is nonzero under the guards. -/
theorem C10_amount_division_guard_witness :
    amountCriterion (some 0) (some { price := some 100 }) = 0
    ∧ amountCriterion (some 50) (some ({ price := some 0 } : Property)) = 0
    ∧ (100 : ℚ) * (5/100) ≠ 0 := by
  refine ⟨(C10_amount_division_guard 0 { price := some 100 }).2.1,
    (C10_amount_division_guard 50 { price := some 0 }).2.2.2.2.1 rfl,
    ((C10_amount_division_guard 50 { price := some 100 }).2.2.2.2.2 100 rfl
      (by decide) (by decide)).2⟩

/-- C4: every result returned by `match_receipt` is well-formed:
`match_status` is `"matched"` or `"manual_review"` (never `"pending"` or
`"rejected"`), the confidence lies in `[0,100]`, each of the five
per-criterion scores lies in `[0,1]`, and a result without an owner is
never `"matched"`. -/
theorem C4_result_wellformed (ocr_data : OcrData) (owners : List Owner)
    (customers : List Customer) (properties : List Property) (min_confidence : ℚ) :
    let r := match_receipt ocr_data owners customers properties min_confidence
    (r.match_status = "matched" ∨ r.match_status = "manual_review")
    ∧ (0 ≤ r.confidence_score ∧ r.confidence_score ≤ 100)
    ∧ (0 ≤ r.iban_match_score ∧ r.iban_match_score ≤ 1)
    ∧ (0 ≤ r.amount_match_score ∧ r.amount_match_score ≤ 1)
    ∧ (0 ≤ r.name_match_score ∧ r.name_match_score ≤ 1)
    ∧ (0 ≤ r.address_match_score ∧ r.address_match_score ≤ 1)
    ∧ (0 ≤ r.sender_match_score ∧ r.sender_match_score ≤ 1)
    ∧ (r.owner_id = none → r.match_status ≠ "matched") := by
  dsimp only
  unfold match_receipt
  dsimp only
  by_cases hc : receiptCandidates ocr_data owners properties = []
  · rw [if_pos hc]
    refine ⟨Or.inr rfl, ⟨le_rfl, by norm_num⟩, ⟨le_rfl, by norm_num⟩,
      ⟨le_rfl, by norm_num⟩, ⟨le_rfl, by norm_num⟩, ⟨le_rfl, by norm_num⟩,
      ⟨le_rfl, by norm_num⟩, fun _ => by simp⟩
  · rw [if_neg hc]
    cases hbm : (receiptBest ocr_data owners customers properties).1 with
    | none =>
      dsimp only
      refine ⟨Or.inr rfl, ⟨le_rfl, by norm_num⟩, ⟨le_rfl, by norm_num⟩,
        ⟨le_rfl, by norm_num⟩, ⟨le_rfl, by norm_num⟩, ⟨le_rfl, by norm_num⟩,
        ⟨le_rfl, by norm_num⟩, fun _ => by simp⟩
    | some bm =>
      dsimp only
      obtain ⟨hmem, hscore⟩ :=
        pickBest_some (receiptScored ocr_data owners customers properties) bm hbm
      obtain ⟨c, hcmem, hbc, hbs, hbt⟩ :=
        mem_receiptScored ocr_data owners customers properties bm hmem
      have hbounds := calc_scores_bounds (receiptInputs ocr_data).1
        (receiptInputs ocr_data).2.1 (receiptInputs ocr_data).2.2.1
        (receiptInputs ocr_data).2.2.2.1 (receiptInputs ocr_data).2.2.2.2
        c.owner c.property customers
      dsimp only at hbounds
      rw [← hbs] at hbounds
      have htot := totalConfidence_bounds bm.scores hbounds
      rw [← hbt] at htot
      have hbest : (receiptBest ocr_data owners customers properties).2 = bm.total_score :=
        hscore
      obtain ⟨⟨i0, i1⟩, ⟨a0, a1⟩, ⟨n0, n1⟩, ⟨d0, d1⟩, ⟨e0, e1⟩⟩ := hbounds
      split
      · exact ⟨Or.inl rfl, by rw [hbest]; exact htot, ⟨i0, i1⟩, ⟨a0, a1⟩, ⟨n0, n1⟩,
          ⟨d0, d1⟩, ⟨e0, e1⟩, fun h => by simp at h⟩
      · exact ⟨Or.inr rfl, by rw [hbest]; exact htot, ⟨i0, i1⟩, ⟨a0, a1⟩, ⟨n0, n1⟩,
          ⟨d0, d1⟩, ⟨e0, e1⟩, fun h => by simp at h⟩

/-- C2: whenever at least one candidate is generated but the best
candidate's confidence is strictly below `min_confidence`, the result is
`"manual_review"` with the best candidate's owner, property and customer
identifiers and all five per-criterion scores populated, and a message
citing the insufficient confidence appended.  (A best candidate exists for
every non-empty candidate set, because every generated candidate scores a
strictly positive total.) -/
theorem C2_manual_review_best_guess (ocr_data : OcrData) (owners : List Owner)
    (customers : List Customer) (properties : List Property) (min_confidence : ℚ)
    (hne : receiptCandidates ocr_data owners properties ≠ [])
    (hlow : (receiptBest ocr_data owners customers properties).2 < min_confidence) :
    let r := match_receipt ocr_data owners customers properties min_confidence
    r.match_status = "manual_review"
    ∧ ∃ bm, (receiptBest ocr_data owners customers properties).1 = some bm
        ∧ r.owner_id = some bm.cand.owner.id
        ∧ r.property_id = bm.cand.property.bind (fun p => p.id)
        ∧ r.customer_id = bm.scores.customer_id
        ∧ r.confidence_score = bm.total_score
        ∧ r.iban_match_score = bm.scores.iban
        ∧ r.amount_match_score = bm.scores.amount
        ∧ r.name_match_score = bm.scores.name
        ∧ r.address_match_score = bm.scores.address
        ∧ r.sender_match_score = bm.scores.sender
        ∧ MatchMessage.lowConfidence bm.total_score ∈ r.messages := by
  have hpos : ∀ b ∈ receiptScored ocr_data owners customers properties, 0 < b.total_score := by
    intro b hb
    obtain ⟨c, hcmem, hbc, hbs, hbt⟩ :=
      mem_receiptScored ocr_data owners customers properties b hb
    rw [hbt, hbs]
    exact find_candidates_total_pos (receiptInputs ocr_data).1 (receiptInputs ocr_data).2.1
      (receiptInputs ocr_data).2.2.1 (receiptInputs ocr_data).2.2.2.1
      (receiptInputs ocr_data).2.2.2.2 owners properties customers c hcmem
  have hsne : receiptScored ocr_data owners customers properties ≠ [] := by
    intro h
    apply hne
    have : (receiptCandidates ocr_data owners properties).map (fun c =>
        let sc := _calculate_match_scores (receiptInputs ocr_data).1
          (receiptInputs ocr_data).2.1 (receiptInputs ocr_data).2.2.1
          (receiptInputs ocr_data).2.2.2.1 (receiptInputs ocr_data).2.2.2.2
          c.owner c.property customers
        ({ cand := c, scores := sc,
           total_score := _calculate_total_confidence (scoresEntries sc) } : ScoredCandidate))
        = [] := h
    exact List.map_eq_nil.mp this
  have hsome : (receiptBest ocr_data owners customers properties).1.isSome :=
    pickBest_isSome (receiptScored ocr_data owners customers properties) hsne hpos
  obtain ⟨bm, hbm⟩ := Option.isSome_iff_exists.mp hsome
  obtain ⟨hmem, hscore⟩ :=
    pickBest_some (receiptScored ocr_data owners customers properties) bm hbm
  have hscore2 : (receiptBest ocr_data owners customers properties).2 = bm.total_score :=
    hscore
  dsimp only
  unfold match_receipt
  dsimp only
  rw [if_neg hne, hbm]
  dsimp only
  rw [if_neg (not_le.mpr hlow)]
  refine ⟨rfl, bm, rfl, rfl, rfl, rfl, ?_, rfl, rfl, rfl, rfl, rfl, ?_⟩
  · exact hscore2
  · rw [hscore2]
    exact List.mem_singleton.mpr rfl

/-- Witness for C2: one owner matched by exact IBAN with no properties and
no other signals scores 9500/385 ≈ 24.7 < 70, and the result surfaces the
best guess under manual review. -/
theorem C2_manual_review_best_guess_witness :
    receiptCandidates { receiver_iban := some ("TR11".toList) }
        [{ id := 1, iban := some ("TR11".toList) }] [] ≠ []
    ∧ (receiptBest { receiver_iban := some ("TR11".toList) }
        [{ id := 1, iban := some ("TR11".toList) }] [] []).2 < 70
    ∧ (match_receipt { receiver_iban := some ("TR11".toList) }
        [{ id := 1, iban := some ("TR11".toList) }] [] [] 70).match_status
        = "manual_review" :=
  ⟨by decide, by decide,
    (C2_manual_review_best_guess { receiver_iban := some ("TR11".toList) }
      [{ id := 1, iban := some ("TR11".toList) }] [] [] 70
      (by decide) (by decide)).1⟩

/-- C3 counterexample: an owner whose name matches the receiver name with
similarity 1 but who owns no properties generates no candidate at all,
while the claim's rule (b) demands a single property-less candidate. -/
theorem C3_name_rule_counterexample :
    _find_candidates [] ("AHMET".toList)
        [{ id := 1, full_name := some ("AHMET".toList) }] [] = []
    ∧ findCandidatesClaimed [] ("AHMET".toList)
        [{ id := 1, full_name := some ("AHMET".toList) }] [] ≠ []
    ∧ 7/10 ≤ name_similarity ("AHMET".toList)
        (normalize_name (some ("AHMET".toList))) := by
  refine ⟨by decide, by decide, by decide⟩

/-- C3 (amended): candidate generation agrees with the specification rules
in which the exact-IBAN rule emits one candidate per owned property or a
single property-less candidate, the name rule (applied only when the IBAN
rule did not fire) emits one candidate per owned property and nothing for
a property-less owner, and owners failing both rules contribute nothing. -/
theorem C3_candidate_generation (rib rname : Str) (owners : List Owner)
    (props : List Property) :
    _find_candidates rib rname owners props = findCandidatesSpec rib rname owners props := by
  unfold _find_candidates findCandidatesSpec
  induction owners with
  | nil => rfl
  | cons o os ih =>
    rw [List.flatMap_cons, List.flatMap_cons, ih, ownerCandidates_eq_spec]

/-- C6 counterexample: with sender `"AB"` and the single customer
`{id 5, name "CD"}`, that customer achieves the maximum similarity (which
is 0), yet no identifier is recorded — refuting the claim that the
identifier of the customer achieving the maximum is always recorded. -/
theorem C6_customer_id_counterexample :
    (_calculate_match_scores [] [] ("AB".toList) none [] { id := 1 } none
        [{ id := some 5, full_name := some ("CD".toList) }]).customer_id = none
    ∧ senderContribution ("AB".toList)
        { id := some 5, full_name := some ("CD".toList) }
        = senderMax ("AB".toList) [{ id := some 5, full_name := some ("CD".toList) }]
    ∧ (none : Option Int) ≠ some 5 := by
  refine ⟨by decide, by decide, by decide⟩

/-- C6 (amended): for every candidate the sender score is the maximum
name similarity over the entire customer list (0 when the sender name or
the customer list is empty); when that maximum is strictly positive, the
identifier of the first customer achieving it is recorded (nothing is
recorded for a zero maximum); the sender score and recorded identifier do
not depend on the owner/property of the candidate; and the recorded
identifier of the best candidate is propagated to the result's
`customer_id`. -/
theorem C6_sender_resolution (sender_name : Str) (customers : List Customer) :
    (sender_name ≠ [] →
      (senderFold sender_name customers).1 = senderMax sender_name customers)
    ∧ (sender_name = [] → (senderFold sender_name customers).1 = 0)
    ∧ (customers = [] → (senderFold sender_name customers).1 = 0)
    ∧ (0 < (senderFold sender_name customers).1 →
        (senderFold sender_name customers).2
          = (customers.find? (fun c =>
              senderContribution sender_name c
                == (senderFold sender_name customers).1)).bind Customer.id)
    ∧ (∀ (rib rname : Str) (amount : Option ℚ) (desc : Str) (o1 o2 : Owner)
        (p1 p2 : Option Property),
        (_calculate_match_scores rib rname sender_name amount desc o1 p1 customers).sender
          = (_calculate_match_scores rib rname sender_name amount desc o2 p2
              customers).sender
        ∧ (_calculate_match_scores rib rname sender_name amount desc o1 p1
              customers).customer_id
          = (_calculate_match_scores rib rname sender_name amount desc o2 p2
              customers).customer_id)
    ∧ (∀ (ocr_data : OcrData) (owners : List Owner) (properties : List Property)
        (minc : ℚ),
        (match_receipt ocr_data owners customers properties minc).customer_id
          = ((receiptBest ocr_data owners customers properties).1).bind
              (fun bm => bm.scores.customer_id)) := by
  refine ⟨senderFold_eq_max sender_name customers, ?_, ?_,
    senderFold_argmax sender_name customers, fun _ _ _ _ _ _ _ _ => ⟨rfl, rfl⟩, ?_⟩
  · intro h
    unfold senderFold
    rw [if_pos h]
  · intro h
    subst h
    unfold senderFold
    split <;> rfl
  · intro ocr_data owners properties minc
    unfold match_receipt
    dsimp only
    by_cases hc : receiptCandidates ocr_data owners properties = []
    · rw [if_pos hc]
      have hsc : receiptScored ocr_data owners customers properties = [] := by
        unfold receiptScored scoreCandidates
        rw [hc]
        rfl
      have hb : (receiptBest ocr_data owners customers properties).1 = none := by
        unfold receiptBest
        rw [hsc]
        rfl
      rw [hb]
      rfl
    · rw [if_neg hc]
      cases hbm : (receiptBest ocr_data owners customers properties).1 with
      | none => rfl
      | some bm =>
        dsimp only
        split <;> rfl

/-- Witness for C6: sender `"AHMET"` against customer
`{id 7, name "AHMET"}` scores the maximum 1 and records id 7. -/
theorem C6_sender_resolution_witness :
    (senderFold ("AHMET".toList)
        [{ id := some 7, full_name := some ("AHMET".toList) }]).1 = 1
    ∧ (senderFold ("AHMET".toList)
        [{ id := some 7, full_name := some ("AHMET".toList) }]).2 = some 7 := by
  have h := C6_sender_resolution ("AHMET".toList)
    [{ id := some 7, full_name := some ("AHMET".toList) }]
  refine ⟨?_, ?_⟩
  · rw [h.1 (by decide)]
    decide
  · rw [h.2.2.2.1 (by decide)]
    decide

/-- C7 counterexample: `"MODA"` yields the keyword set `{MODA}` while the
stopword `"KIRA"` yields no keywords; with exactly one side empty the code
returns 0 instead of falling back to the edit similarity 1/4 that the
claim demands. -/
theorem C7_one_sided_fallback_counterexample :
    extract_address_keywords ("MODA".toList) ≠ ∅
    ∧ extract_address_keywords ("KIRA".toList) = ∅
    ∧ address_similarity ("MODA".toList) ("KIRA".toList) = 0
    ∧ levenshtein_similarity ("MODA".toList) ("KIRA".toList) = 1/4
    ∧ (0 : ℚ) ≠ 1/4 := by
  refine ⟨by decide, by decide, by decide, by decide, by decide⟩

/-- C7 (amended): on two non-empty strings, `address_similarity` computes
the Jaccard similarity of the two extracted keyword sets; it falls back to
the raw edit similarity of the unprocessed inputs only when both sides
yield zero keywords, and returns 0 when exactly one side yields zero
keywords; it returns 0 if either input string is empty. -/
theorem C7_address_similarity_structure (a1 a2 : Str) :
    (a1 = [] ∨ a2 = [] → address_similarity a1 a2 = 0)
    ∧ (a1 ≠ [] → a2 ≠ [] →
        (extract_address_keywords a1 = ∅ ∧ extract_address_keywords a2 = ∅ →
          address_similarity a1 a2 = levenshtein_similarity a1 a2)
        ∧ (extract_address_keywords a1 = ∅ ∧ extract_address_keywords a2 ≠ ∅ →
          address_similarity a1 a2 = 0)
        ∧ (extract_address_keywords a1 ≠ ∅ ∧ extract_address_keywords a2 = ∅ →
          address_similarity a1 a2 = 0)
        ∧ (extract_address_keywords a1 ≠ ∅ → extract_address_keywords a2 ≠ ∅ →
          address_similarity a1 a2
            = ((extract_address_keywords a1 ∩ extract_address_keywords a2).card : ℚ)
              / ((extract_address_keywords a1 ∪ extract_address_keywords a2).card : ℚ))) := by
  constructor
  · intro h
    unfold address_similarity
    rw [if_pos h]
  · intro h1 h2
    have hne : ¬ (a1 = [] ∨ a2 = []) := by
      rintro (h | h)
      · exact h1 h
      · exact h2 h
    refine ⟨?_, ?_, ?_, ?_⟩
    · intro hkw
      unfold address_similarity
      rw [if_neg hne]
      dsimp only
      rw [if_pos hkw]
    · rintro ⟨hk1, hk2⟩
      unfold address_similarity
      rw [if_neg hne]
      dsimp only
      rw [if_neg (fun hb => hk2 hb.2), if_pos (Or.inl hk1)]
    · rintro ⟨hk1, hk2⟩
      unfold address_similarity
      rw [if_neg hne]
      dsimp only
      rw [if_neg (fun hb => hk1 hb.1), if_pos (Or.inr hk2)]
    · intro hk1 hk2
      unfold address_similarity
      rw [if_neg hne]
      dsimp only
      rw [if_neg (fun hb => hk1 hb.1), if_neg (by
        rintro (h | h)
        · exact hk1 h
        · exact hk2 h)]
      rw [if_neg (by
        intro hcard
        apply hk1
        have hcz := Finset.card_eq_zero.mp hcard
        have hsub : extract_address_keywords a1
            ⊆ extract_address_keywords a1 ∪ extract_address_keywords a2 :=
          Finset.subset_union_left
        rw [hcz] at hsub
        exact Finset.subset_empty.mp hsub)]

/-- Witness for C7: two identical keyword-bearing addresses have Jaccard
similarity 1. -/
theorem C7_address_similarity_structure_witness :
    address_similarity ("MODA".toList) ("MODA".toList) = 1 := by
  have h := (C7_address_similarity_structure ("MODA".toList) ("MODA".toList)).2
    (by decide) (by decide)
  rw [h.2.2.2 (by decide) (by decide)]
  decide

/-- C8 counterexample: in `"12,34.5"` the rightmost separator with at most
2 trailing digits is the dot, so the claim's rule predicts the parse of
`"1234.5"`, i.e. 1234.5; the code instead keeps the comma as the decimal
separator and returns 12.345. -/
theorem C8_both_separators_counterexample :
    normalize_amount (some ("12,34.5".toList)) = some (12345/1000)
    ∧ pyFloat ("1234.5".toList) = some (2469/2)
    ∧ (12345/1000 : ℚ) ≠ 2469/2 := by
  refine ⟨by decide, by decide, by decide⟩

/-- C8 (amended): `normalize_amount` strips currency tokens, corrects OCR
`O`→`0`, and disambiguates separators as follows.  When both `,` and `.`
appear, the comma is treated as the decimal separator: if at most two
characters follow the last comma, the dots are removed from the part
before it and that comma becomes the decimal point, otherwise all dots
are removed and all commas become dots.  When only one separator type
appears it is decimal exactly when it occurs once with at most 2 trailing
characters, otherwise every occurrence is a thousands separator.  On the
concrete inputs: both locale styles agree on 45000, and a non-numeric
string yields `none` rather than an exception.  (The cleanliness
hypotheses state that the input is unaffected by the earlier currency and
OCR stages.) -/
theorem C8_amount_separator_rules (t : Str) :
    normalize_amount none = none
    ∧ normalize_amount (some []) = none
    ∧ normalize_amount (some ("45.000,00".toList)) = some 45000
    ∧ normalize_amount (some ("45000.00".toList)) = some 45000
    ∧ normalize_amount (some ("not a number".toList)) = none
    ∧ (t ≠ [] → 'T' ∉ t → '₺' ∉ t → 'O' ∉ t → 'o' ∉ t →
        (∀ c ∈ t, pyIsSpace c = false) → ',' ∈ t → '.' ∈ t →
        normalize_amount (some t)
          = pyFloat (if (t.drop (lastIdxOf ',' t + 1)).length ≤ 2 then
              replaceSub ['.'] [] (t.take (lastIdxOf ',' t))
                ++ '.' :: t.drop (lastIdxOf ',' t + 1)
            else replaceSub [','] ['.'] (replaceSub ['.'] [] t)))
    ∧ (t ≠ [] → 'T' ∉ t → '₺' ∉ t → 'O' ∉ t → 'o' ∉ t →
        (∀ c ∈ t, pyIsSpace c = false) → ',' ∈ t → '.' ∉ t →
        normalize_amount (some t)
          = pyFloat (if t.count ',' = 1 ∧ (afterFirst ',' t).length ≤ 2 then
              replaceSub [','] ['.'] t
            else replaceSub [','] [] t))
    ∧ (t ≠ [] → 'T' ∉ t → '₺' ∉ t → 'O' ∉ t → 'o' ∉ t →
        (∀ c ∈ t, pyIsSpace c = false) → ',' ∉ t → '.' ∈ t →
        normalize_amount (some t)
          = pyFloat (if t.count '.' = 1 ∧ (afterFirst '.' t).length ≤ 2 then t
            else replaceSub ['.'] [] t)) := by
  refine ⟨rfl, rfl, by decide, by decide, by decide, ?_, ?_, ?_⟩
  · intro hne hT hlira hO ho hsp hc hd
    unfold normalize_amount
    dsimp only
    rw [if_neg hne, currencyStrip_no_op t hT hlira hsp, ocrOzero_no_op t hO ho]
    unfold sepFix
    rw [if_pos ⟨hc, hd⟩]
  · intro hne hT hlira hO ho hsp hc hd
    unfold normalize_amount
    dsimp only
    rw [if_neg hne, currencyStrip_no_op t hT hlira hsp, ocrOzero_no_op t hO ho]
    unfold sepFix
    rw [if_neg (fun hb => hd hb.2), if_pos hc]
  · intro hne hT hlira hO ho hsp hc hd
    unfold normalize_amount
    dsimp only
    rw [if_neg hne, currencyStrip_no_op t hT hlira hsp, ocrOzero_no_op t hO ho]
    unfold sepFix
    rw [if_neg (fun hb => hc hb.1), if_neg hc, if_pos hd]

/-- Witness for C8 at a clean Turkish-locale amount with both separators:
`"1.234,56"` parses to 1234.56. -/
theorem C8_amount_separator_rules_witness :
    normalize_amount (some ("1.234,56".toList)) = some (123456/100) := by
  have h := (C8_amount_separator_rules ("1.234,56".toList)).2.2.2.2.2.1
    (by decide) (by decide) (by decide) (by decide) (by decide) (by decide)
    (by decide) (by decide)
  rw [h]
  decide
